import Mathlib

/-!
# TellorMiner value-aggregation subsystem

A shallow embedding of `tracker/valueProcessor.go` (the aggregation
strategies, the strategy selector and the shared numeric helpers) and of
`tracker/factory.go` (the tracker factory), together with theorems about them.

Conventions of the embedding.

* A Go `error` result is an `Option GoError` (`none` is the nil error).
* A Go runtime panic is the `Except.error` branch of `Except GoPanic`.
* A `[]byte` payload is an `Option (List Nat)`: `none` is the nil slice.
* The sample type `float64` is a type parameter `α` carrying the operations
  the code uses.  Structural statements are proved for every carrier; the
  statements that need arithmetic laws are proved for exact carriers
  (division rings, ordered fields); `F64` below is the IEEE 754 binary64
  carrier with round-to-nearest-even, used where rounding decides.
* The library function `math.Exp` is a parameter of the embedding; the
  statements about it are proved in real arithmetic with the real exponential.
* Logging (`psrLog`) has no effect on any returned value and is left out.
-/

namespace Tracker

/-! ## Go runtime -/

/-- The runtime panics the embedded functions can raise. -/
inductive GoPanic where
  | indexOutOfRange
  | integerDivideByZero
  | nilDereference
  deriving DecidableEq, Repr

/-- A Go `error` value, identified with its message. -/
abbrev GoError := String

/-! ## Strategy selector -/

/-- The three implementations of the `ValueProcessor` interface. -/
inductive ValueProcessor where
  | DefaultProcessor
  | MedianProc
  | TimeAverage
  deriving DecidableEq, Repr

/-- The struct `ValueP`: it embeds a `ValueProcessor` interface value, which is
nil (`none`) until a strategy is installed. -/
structure ValueP where
  ValueProcessor : Option ValueProcessor
  deriving DecidableEq, Repr

/-- The method `(*ValueP).UnmarshalJSON`.  The argument `decoded` is what
`json.Unmarshal(data, &str)` produced on line 24: `Except.error err` when it
returned a non-nil error, `Except.ok str` otherwise.  The result is the
receiver after the call together with the returned error. -/
def ValueP.UnmarshalJSON (f : ValueP) (decoded : Except GoError String) :
    ValueP × Option GoError :=
  match decoded with
  | .error err => (f, some err)
  | .ok str =>
    if str = "median" then ({ f with ValueProcessor := some .MedianProc }, none)
    else if str = "value" then ({ f with ValueProcessor := some .DefaultProcessor }, none)
    else if str = "dayAvg" then ({ f with ValueProcessor := some .TimeAverage }, none)
    else if str = "" then ({ f with ValueProcessor := some .DefaultProcessor }, none)
    else (f, some ("unrecognized transformation in PSR: " ++ str))

/-! ## The type `float64`

IEEE 754 binary64 with the default rounding (to nearest, ties to even), as Go
evaluates `+`, `/`, `<` and the conversion `float64(n)` of an integer. -/

/-- A `float64` value: NaN, a signed infinity, or the finite number
`(-1)^neg * m * 2^e`.  The operations below only produce finite values in
canonical form: a signed zero is `fin neg 0 0`; otherwise `m < 2^53`,
`-1074 ≤ e ≤ 971`, and `2^52 ≤ m` unless `e = -1074` (a subnormal). -/
inductive F64 where
  | nan
  | inf (neg : Bool)
  | fin (neg : Bool) (m : Nat) (e : Int)
  deriving DecidableEq, Repr

/-- The number of binary digits of `n`, with `fuel` at least that number. -/
def bitLen : Nat → Nat → Nat
  | 0, _ => 0
  | fuel + 1, n => if n = 0 then 0 else bitLen fuel (n / 2) + 1

/-- The integer `k` with `2^k ≤ n/d < 2^(k+1)`, for positive `n` and `d`. -/
def floorLog2 (n d : Nat) : Int :=
  let k : Int := (bitLen n n : Int) - (bitLen d d : Int)
  if d * 2 ^ k.toNat ≤ n * 2 ^ (-k).toNat then k else k - 1

/-- Rounding of the exact quotient `n/d` (with `0 < d`) and sign `neg` to the
nearest `float64`, ties to even: `t` is the exponent of the last kept binary
digit, `q` the quotient truncated there and `r` what is cut off. -/
def F64.round (neg : Bool) (n d : Nat) : F64 :=
  if n = 0 then .fin neg 0 0
  else
    let t : Int := max (floorLog2 n d) (-1022) - 52
    let N := n * 2 ^ (-t).toNat
    let D := d * 2 ^ t.toNat
    let q := N / D
    let r := N % D
    let q1 := if 2 * r < D then q else if D < 2 * r then q + 1 else q + q % 2
    if q1 = 0 then .fin neg 0 0
    else if q1 = 2 ^ 53 then (if 971 < t + 1 then .inf neg else .fin neg (2 ^ 52) (t + 1))
    else if 971 < t then .inf neg
    else .fin neg q1 t

/-- The conversion `float64(i)` of an integer. -/
def F64.ofInt (i : Int) : F64 := F64.round (decide (i < 0)) i.natAbs 1

/-- The operator `+` on `float64`. -/
def F64.add : F64 → F64 → F64
  | .nan, _ => .nan
  | _, .nan => .nan
  | .inf s, .inf s' => if s = s' then .inf s else .nan
  | .inf s, .fin _ _ _ => .inf s
  | .fin _ _ _, .inf s => .inf s
  | .fin s1 m1 e1, .fin s2 m2 e2 =>
    let e := min e1 e2
    let i1 : Int := (if s1 then -1 else 1) * (m1 * 2 ^ (e1 - e).toNat : Nat)
    let i2 : Int := (if s2 then -1 else 1) * (m2 * 2 ^ (e2 - e).toNat : Nat)
    let i := i1 + i2
    if i = 0 then .fin (s1 && s2) 0 0
    else F64.round (decide (i < 0)) (i.natAbs * 2 ^ e.toNat) (2 ^ (-e).toNat)

/-- The operator `/` on `float64`. -/
def F64.div : F64 → F64 → F64
  | .nan, _ => .nan
  | _, .nan => .nan
  | .inf _, .inf _ => .nan
  | .inf s, .fin s' _ _ => .inf (xor s s')
  | .fin s _ _, .inf s' => .fin (xor s s') 0 0
  | .fin s1 m1 e1, .fin s2 m2 e2 =>
    if m2 = 0 then (if m1 = 0 then .nan else .inf (xor s1 s2))
    else F64.round (xor s1 s2) (m1 * 2 ^ (e1 - e2).toNat) (m2 * 2 ^ (e2 - e1).toNat)

/-- The operator `<` on `float64`: false as soon as an operand is NaN. -/
def F64.lt : F64 → F64 → Bool
  | .nan, _ => false
  | _, .nan => false
  | .inf s, .inf s' => s && !s'
  | .inf s, .fin _ _ _ => s
  | .fin _ _ _, .inf s => !s
  | .fin s1 m1 e1, .fin s2 m2 e2 =>
    let e := min e1 e2
    let i1 : Int := (if s1 then -1 else 1) * (m1 * 2 ^ (e1 - e).toNat : Nat)
    let i2 : Int := (if s2 then -1 else 1) * (m2 * 2 ^ (e2 - e).toNat : Nat)
    decide (i1 < i2)

/-- The canonical forms: NaN, the infinities, the two zeros, the normal numbers
and the subnormal numbers. -/
def F64.canonical : F64 → Bool
  | .fin _ m e =>
    (decide (m = 0) && decide (e = 0)) ||
    (decide (2 ^ 52 ≤ m) && decide (m < 2 ^ 53) && decide (-1074 ≤ e) && decide (e ≤ 971)) ||
    (decide (0 < m) && decide (m < 2 ^ 52) && decide (e = -1074))
  | _ => true

instance : Zero F64 := ⟨.fin false 0 0⟩

instance : Add F64 := ⟨F64.add⟩

instance : Div F64 := ⟨F64.div⟩

instance : NatCast F64 := ⟨fun n => F64.ofInt n⟩

instance : LT F64 := ⟨fun a b => F64.lt a b = true⟩

instance : DecidableRel (fun a b : F64 => a < b) :=
  fun a b => inferInstanceAs (Decidable (F64.lt a b = true))

/-! ## Requests and samples -/

/-- Modelled from the spec: the struct `PrespecifiedRequest` is declared outside
the files at hand; it has a unique request id, a granularity (a `uint`), and
one argument group per configured data source, positionally aligned with the
raw payloads.  Only the fields `valueProcessor.go` reads are kept. -/
structure PrespecifiedRequest where
  RequestID : Nat
  Granularity : Nat
  argGroups : List (List String)
  deriving DecidableEq, Repr

/-- Modelled from the spec: the struct `TimedFloat` is declared outside the files
at hand; it is a numeric value with a creation timestamp (nanoseconds). -/
structure TimedFloat (α : Type) where
  Val : α
  Created : Int
  deriving DecidableEq, Repr

/-- The signature of `util.ParsePayload(payload, granularity, args)`, an external
collaborator: it yields a sample or an error. -/
abbrev PayloadParser (α : Type) := List Nat → Nat → List String → Except GoError α

/-! ## Shared numeric helpers -/

/-- The function `mean`: 0 for the empty slice, otherwise the left-to-right sum
starting from `0.0`, divided by `float64(len(vals))`. -/
def mean {α : Type} [Zero α] [Add α] [Div α] [NatCast α] (vals : List α) : α :=
  if vals.length = 0 then 0
  else vals.foldl (fun sum v => sum + v) 0 / (vals.length : α)

/-- Insertion of one element into a slice ordered by `less`. -/
def sortInsert {α : Type} (less : α → α → Bool) (x : α) : List α → List α
  | [] => [x]
  | y :: ys => if less x y then x :: y :: ys else y :: sortInsert less x ys

/-- The library call `sort.Slice(vals, less)`, as an insertion sort driven by
the `less` callback.  When `less` is the strict order of a total order the
result does not depend on the sorting algorithm: it is the one ascending
arrangement of the slice (`sortSlice_unique`). -/
def sortSlice {α : Type} (less : α → α → Bool) : List α → List α
  | [] => []
  | x :: xs => sortInsert less x (sortSlice less xs)

/-- The function `median`: 0 for the empty slice, otherwise the slice is sorted
with `vals[i] < vals[j]` and the element at index `len(vals)/2` is returned
(the index is always in range, see `median_index_lt`). -/
def median {α : Type} [Zero α] [LT α] [DecidableRel (fun a b : α => a < b)]
    (vals : List α) : α :=
  if vals.length = 0 then 0
  else (sortSlice (fun a b => decide (a < b)) vals).getD (vals.length / 2) 0

/-! ## Payload parsing and the Transform operations -/

/-- The loop of `parsePayloads` from position `i` on, with `vals` the samples
appended so far.  A nil payload is skipped before anything else is looked at;
for a non-nil payload `r.argGroups[i]` is evaluated, which panics when `i` is
out of range; a parse error skips the payload. -/
def parsePayloadsLoop {α : Type} (parse : PayloadParser α) (r : PrespecifiedRequest) :
    Nat → List (Option (List Nat)) → List α → Except GoPanic (List α)
  | _, [], vals => .ok vals
  | i, none :: rest, vals => parsePayloadsLoop parse r (i + 1) rest vals
  | i, some pl :: rest, vals =>
    match r.argGroups[i]? with
    | none => .error .indexOutOfRange
    | some args =>
      match parse pl r.Granularity args with
      | .error _ => parsePayloadsLoop parse r (i + 1) rest vals
      | .ok v => parsePayloadsLoop parse r (i + 1) rest (vals ++ [v])

/-- The function `parsePayloads`. -/
def parsePayloads {α : Type} (parse : PayloadParser α) (r : PrespecifiedRequest)
    (payloads : List (Option (List Nat))) : Except GoPanic (List α) :=
  parsePayloadsLoop parse r 0 payloads []

/-- The method `DefaultProcessor.Transform`. -/
def DefaultProcessor.Transform {α : Type} [Zero α] [Add α] [Div α] [NatCast α]
    (parse : PayloadParser α) (r : PrespecifiedRequest)
    (payloads : List (Option (List Nat))) : Except GoPanic (α × Option GoError) :=
  match parsePayloads parse r payloads with
  | .error p => .error p
  | .ok vals => .ok (mean vals, none)

/-- The method `MedianProc.Transform`. -/
def MedianProc.Transform {α : Type} [Zero α] [LT α] [DecidableRel (fun a b : α => a < b)]
    (parse : PayloadParser α) (r : PrespecifiedRequest)
    (payloads : List (Option (List Nat))) : Except GoPanic (α × Option GoError) :=
  match parsePayloads parse r payloads with
  | .error p => .error p
  | .ok vals => .ok (median vals, none)

/-- The samples the specification lets `Transform` compute over: the values
`parse(payload_i, granularity, argGroup_i)` of the positions whose payload is
non-nil and whose parse succeeds, in their original order. -/
def parsedSamples {α : Type} (parse : PayloadParser α) (r : PrespecifiedRequest)
    (payloads : List (Option (List Nat))) : List α :=
  (payloads.zip r.argGroups).filterMap fun pa =>
    match pa.1 with
    | none => none
    | some pl =>
      match parse pl r.Granularity pa.2 with
      | .error _ => none
      | .ok v => some v

/-! ## The Value operations -/

/-- The constant `time.Hour`, in nanoseconds. -/
def Hour : Int := 3600 * 1000000000

/-- Modelled from the spec: what the Value operations read from their external
collaborators, none of which is in the files at hand.  `TrackerSleepCycle` is
`config.GetConfig().TrackerSleepCycle.Duration` (nanoseconds), `now` is
`time.Now()`, `GetLatestRequestValue` is the Value Store query for the latest
sample of a request id (nil when there is none) and `GetRequestValuesForTime`
the query for the samples of a request id within a trailing time window. -/
structure Env (α : Type) where
  TrackerSleepCycle : Int
  now : Int
  GetLatestRequestValue : Nat → Option (TimedFloat α)
  GetRequestValuesForTime : Nat → Int → Int → List (TimedFloat α)

/-- The method `DefaultProcessor.Value`; `ti.Val` dereferences the pointer the
store returned. -/
def DefaultProcessor.Value {α : Type} (env : Env α) (r : PrespecifiedRequest) :
    Except GoPanic (α × Bool) :=
  match env.GetLatestRequestValue r.RequestID with
  | none => .error .nilDereference
  | some ti => .ok (ti.Val, true)

/-- The method `TimeAverage.Value`.  `max` is an integer quotient of two
durations (it panics on a zero divisor and truncates), `ratio` is a `float64`
quotient and `0.6` is the constant rounded to `float64`. -/
def TimeAverage.Value {α : Type} [Zero α] [Add α] [Div α] [NatCast α]
    (env : Env α) (r : PrespecifiedRequest) : Except GoPanic (α × Bool) :=
  let timeInterval : Int := 24 * Hour
  let vals := env.GetRequestValuesForTime r.RequestID env.now timeInterval
  if env.TrackerSleepCycle = 0 then .error .integerDivideByZero
  else
    let max : Int := Int.tdiv timeInterval env.TrackerSleepCycle
    let ratio := F64.div (F64.ofInt vals.length) (F64.ofInt max)
    if F64.lt ratio (F64.round false 6 10) then .ok (0, false)
    else .ok (mean (vals.map fun v => v.Val), true)

/-! ## Methods reached through struct embedding and the interface -/

/-- The method `Value` of `MedianProc`.  `MedianProc` declares no `Value` of its
own: the struct embeds `DefaultProcessor`, whose method is promoted. -/
def MedianProc.Value {α : Type} (env : Env α) (r : PrespecifiedRequest) :
    Except GoPanic (α × Bool) :=
  DefaultProcessor.Value env r

/-- The method `Transform` of `TimeAverage`.  `TimeAverage` declares no
`Transform` of its own: the struct embeds `DefaultProcessor`, whose method is
promoted. -/
def TimeAverage.Transform {α : Type} [Zero α] [Add α] [Div α] [NatCast α]
    (parse : PayloadParser α) (r : PrespecifiedRequest)
    (payloads : List (Option (List Nat))) : Except GoPanic (α × Option GoError) :=
  DefaultProcessor.Transform parse r payloads

/-- A call of `Transform` on a `ValueProcessor` interface value: the method of
the dynamic type runs. -/
def ValueProcessor.Transform {α : Type} [Zero α] [Add α] [Div α] [NatCast α] [LT α]
    [DecidableRel (fun a b : α => a < b)] (p : ValueProcessor)
    (parse : PayloadParser α) (r : PrespecifiedRequest)
    (payloads : List (Option (List Nat))) : Except GoPanic (α × Option GoError) :=
  match p with
  | .DefaultProcessor => Tracker.DefaultProcessor.Transform parse r payloads
  | .MedianProc => Tracker.MedianProc.Transform parse r payloads
  | .TimeAverage => Tracker.TimeAverage.Transform parse r payloads

/-- A call of `Value` on a `ValueProcessor` interface value: the method of the
dynamic type runs. -/
def ValueProcessor.Value {α : Type} [Zero α] [Add α] [Div α] [NatCast α]
    (p : ValueProcessor) (env : Env α) (r : PrespecifiedRequest) :
    Except GoPanic (α × Bool) :=
  match p with
  | .DefaultProcessor => Tracker.DefaultProcessor.Value env r
  | .MedianProc => Tracker.MedianProc.Value env r
  | .TimeAverage => Tracker.TimeAverage.Value env r

/-! ## The exponential time-weighted mean -/

/-- The method `Time.Sub` of the standard library on timestamps in nanoseconds:
the difference, saturated to the range of an `int64` duration. -/
def Sub (t u : Int) : Int :=
  max (-9223372036854775808) (min 9223372036854775807 (t - u))

/-- The method `Duration.Seconds` of the standard library:
`float64(sec) + float64(nsec)/1e9`, with `sec` and `nsec` the truncated quotient
and the remainder of the duration by one second. -/
def Seconds {α : Type} [Add α] [Div α] [NatCast α] [IntCast α] (d : Int) : α :=
  ((Int.tdiv d 1000000000 : Int) : α) + ((Int.tmod d 1000000000 : Int) : α) /
    ((1000000000 : Nat) : α)

/-- The function `expTimeWeightedMean`.  `now` is `time.Now()` and `exp` is the
library function `math.Exp`; the constant `86400/3` is an integer constant
division, and `v.Val * 1/(..)` groups as `(v.Val * 1)/(..)`. -/
def expTimeWeightedMean {α : Type} [Zero α] [Add α] [Mul α] [Div α] [NatCast α]
    [IntCast α] (exp : α → α) (now : Int) (vals : List (TimedFloat α)) : α :=
  if vals.length = 0 then 0
  else
    vals.foldl (fun sum v =>
      sum + v.Val * ((1 : Nat) : α) /
        exp (Seconds (Sub now v.Created) / ((86400 / 3 : Nat) : α))) 0 /
      (vals.length : α)

/-! ## Tracker factory -/

/-- The implementations of the `Tracker` interface that `createTracker` builds.
Modelled from the spec: the struct types are declared outside the files at
hand; `PSRTracker` stands for the jobs `BuildPSRTrackers` builds, one per
configured pre-specified request (identified here by a number). -/
inductive Tracker where
  | TestTracker
  | BalanceTracker
  | CurrentVariablesTracker
  | DisputeTracker
  | GasTracker
  | Top50Tracker
  | TributeTracker
  | RequestDataTracker
  | disputeChecker
  | PSRTracker (request : Nat)
  deriving DecidableEq, Repr

/-- The function `createTracker`.  A `[]Tracker` result is an `Option (List ..)`
with `none` the nil slice.  The argument `BuildPSRTrackers` is what the call
`BuildPSRTrackers()` returns (the function is outside the files at hand).  The
statement `return nil, nil` after the switch is unreachable: every case of the
switch returns. -/
def createTracker (BuildPSRTrackers : Option (List Tracker) × Option GoError)
    (name : String) : Option (List Tracker) × Option GoError :=
  if name = "test" then (some [.TestTracker], none)
  else if name = "balance" then (some [.BalanceTracker], none)
  else if name = "currentVariables" then (some [.CurrentVariablesTracker], none)
  else if name = "disputeStatus" then (some [.DisputeTracker], none)
  else if name = "gas" then (some [.GasTracker], none)
  else if name = "top50" then (some [.Top50Tracker], none)
  else if name = "tributeBalance" then (some [.TributeTracker], none)
  else if name = "fetchData" then (some [.RequestDataTracker], none)
  else if name = "psr" then BuildPSRTrackers
  else if name = "disputeChecker" then (some [.disputeChecker], none)
  else (none, some ("no tracker with the name " ++ name))

/-! ## Inputs of the worked examples -/

/-- A concrete payload parser for the worked examples: a non-empty payload of
ASCII decimal digits is read as a number and divided by the granularity; any
other payload is a parse error. -/
def decimalParser : PayloadParser ℚ := fun pl g _ =>
  if pl ≠ [] ∧ ∀ b ∈ pl, 48 ≤ b ∧ b ≤ 57 then
    .ok (((pl.foldl (fun acc b => 10 * acc + (b - 48)) 0 : Nat) : ℚ) / (g : ℚ))
  else .error "not a number"

/-- An environment for the worked examples: the sampling cycle is `cycle` and the
store holds the samples `vals`, all of them inside the trailing window. -/
def exampleEnv (cycle : Int) (vals : List (TimedFloat ℚ)) : Env ℚ :=
  ⟨cycle, 0, fun _ => vals.getLast?, fun _ _ _ => vals⟩

/-- The value list `[v, v, ..]` of `k` samples created at time 0. -/
def exampleSamples (k : Nat) (v : ℚ) : List (TimedFloat ℚ) :=
  List.replicate k ⟨v, 0⟩

/-! ## Auxiliary lemmas -/

/-! ### Sorting -/

theorem sortInsert_perm {α : Type} (less : α → α → Bool) (x : α) (l : List α) :
    (sortInsert less x l).Perm (x :: l) := by
  induction l with
  | nil => simp [sortInsert]
  | cons y ys ih =>
    unfold sortInsert
    split
    · exact List.Perm.refl _
    · exact (List.Perm.cons y ih).trans (List.Perm.swap x y ys)

theorem sortSlice_perm {α : Type} (less : α → α → Bool) (l : List α) :
    (sortSlice less l).Perm l := by
  induction l with
  | nil => simp [sortSlice]
  | cons x xs ih =>
    exact (sortInsert_perm less x _).trans (List.Perm.cons x ih)

theorem sortSlice_length {α : Type} (less : α → α → Bool) (l : List α) :
    (sortSlice less l).length = l.length :=
  (sortSlice_perm less l).length_eq

theorem sortInsert_sorted {α : Type} [LinearOrder α] (x : α) (l : List α)
    (h : l.Sorted (· ≤ ·)) :
    (sortInsert (fun a b => decide (a < b)) x l).Sorted (· ≤ ·) := by
  induction l with
  | nil => simp [sortInsert]
  | cons y ys ih =>
    unfold sortInsert
    by_cases hxy : x < y
    · simp only [hxy, decide_True, if_true]
      refine List.sorted_cons.2 ⟨?_, h⟩
      intro b hb
      rcases List.mem_cons.1 hb with rfl | hb
      · exact le_of_lt hxy
      · exact le_trans (le_of_lt hxy) (List.rel_of_sorted_cons h b hb)
    · simp only [hxy, decide_False, Bool.false_eq_true, if_false]
      refine List.sorted_cons.2 ⟨?_, ih (List.Sorted.of_cons h)⟩
      intro b hb
      have hb2 : b ∈ x :: ys := (sortInsert_perm _ x ys).subset hb
      rcases List.mem_cons.1 hb2 with rfl | hb2
      · exact not_lt.1 hxy
      · exact List.rel_of_sorted_cons h b hb2

theorem sortSlice_sorted {α : Type} [LinearOrder α] (l : List α) :
    (sortSlice (fun a b => decide (a < b)) l).Sorted (· ≤ ·) := by
  induction l with
  | nil => simp [sortSlice]
  | cons x xs ih => exact sortInsert_sorted x _ ih

/-- Any ascending arrangement of `l` is the one `sort.Slice` produces. -/
theorem sortSlice_unique {α : Type} [LinearOrder α] (l s : List α)
    (hp : s.Perm l) (hs : s.Sorted (· ≤ ·)) :
    sortSlice (fun a b => decide (a < b)) l = s :=
  List.eq_of_perm_of_sorted ((sortSlice_perm _ l).trans hp.symm) (sortSlice_sorted l) hs

theorem median_index_lt {α : Type} (vals : List α) (h : vals ≠ []) :
    vals.length / 2 < vals.length :=
  Nat.div_lt_self (List.length_pos.2 h) (by decide)

theorem median_of_sorted {α : Type} [LinearOrder α] [Zero α] (vals s : List α)
    (hne : vals ≠ []) (hp : s.Perm vals) (hs : s.Sorted (· ≤ ·)) :
    s[vals.length / 2]? = some (median vals) := by
  have hlen : vals.length ≠ 0 := fun h => hne (List.length_eq_zero.1 h)
  have hlt : vals.length / 2 < s.length := by
    rw [hp.length_eq]; exact median_index_lt vals hne
  unfold median
  rw [if_neg hlen, sortSlice_unique vals s hp hs, List.getD_eq_getElem?_getD,
    List.getElem?_eq_getElem hlt]
  rfl

/-! ### The loop of `parsePayloads` -/

theorem parsePayloadsLoop_ok {α : Type} (parse : PayloadParser α) (r : PrespecifiedRequest) :
    ∀ (payloads : List (Option (List Nat))) (i : Nat) (vals : List α),
      (∀ j b, payloads[j]? = some (some b) → i + j < r.argGroups.length) →
      parsePayloadsLoop parse r i payloads vals =
        .ok (vals ++ parsedSamples parse
          ⟨r.RequestID, r.Granularity, r.argGroups.drop i⟩ payloads) := by
  intro payloads
  induction payloads with
  | nil => intro i vals _; simp [parsePayloadsLoop, parsedSamples]
  | cons p rest ih =>
    intro i vals h
    have hrest : ∀ j b, rest[j]? = some (some b) → (i + 1) + j < r.argGroups.length := by
      intro j b hj
      have := h (j + 1) b (by simpa using hj)
      omega
    cases p with
    | none =>
      rw [parsePayloadsLoop, ih (i + 1) vals hrest]
      by_cases hi : i < r.argGroups.length
      · simp only [parsedSamples]
        rw [List.drop_eq_getElem_cons hi, List.zip_cons_cons, List.filterMap_cons]
      · have h1 : r.argGroups.drop i = [] := List.drop_eq_nil_of_le (by omega)
        have h2 : r.argGroups.drop (i + 1) = [] := List.drop_eq_nil_of_le (by omega)
        simp [parsedSamples, h1, h2]
    | some b =>
      have hi : i < r.argGroups.length := by
        have := h 0 b (by simp)
        omega
      rw [parsePayloadsLoop, List.getElem?_eq_getElem hi]
      simp only
      cases hp : parse b r.Granularity r.argGroups[i] with
      | error e =>
        simp only
        rw [ih (i + 1) vals hrest]
        simp only [parsedSamples]
        rw [List.drop_eq_getElem_cons hi, List.zip_cons_cons, List.filterMap_cons]
        simp [hp]
      | ok v =>
        simp only
        rw [ih (i + 1) (vals ++ [v]) hrest]
        simp only [parsedSamples]
        rw [List.drop_eq_getElem_cons hi, List.zip_cons_cons, List.filterMap_cons]
        simp [hp]

theorem parsePayloadsLoop_panic {α : Type} (parse : PayloadParser α) (r : PrespecifiedRequest) :
    ∀ (payloads : List (Option (List Nat))) (i : Nat) (vals : List α),
      (∃ j b, payloads[j]? = some (some b) ∧ r.argGroups.length ≤ i + j) →
      parsePayloadsLoop parse r i payloads vals = .error .indexOutOfRange := by
  intro payloads
  induction payloads with
  | nil => intro i vals h; obtain ⟨j, b, hj, _⟩ := h; simp at hj
  | cons p rest ih =>
    intro i vals h
    obtain ⟨j, b, hj, hle⟩ := h
    cases j with
    | zero =>
      have hp : p = some b := by simpa using hj
      subst hp
      have hnone : r.argGroups[i]? = none := List.getElem?_eq_none (by omega)
      rw [parsePayloadsLoop, hnone]
    | succ j =>
      have hrest : ∃ j b, rest[j]? = some (some b) ∧ r.argGroups.length ≤ (i + 1) + j :=
        ⟨j, b, by simpa using hj, by omega⟩
      cases p with
      | none => rw [parsePayloadsLoop]; exact ih (i + 1) vals hrest
      | some b0 =>
        rw [parsePayloadsLoop]
        cases hg : r.argGroups[i]? with
        | none => rfl
        | some args =>
          simp only
          cases hp : parse b0 r.Granularity args with
          | error e => exact ih (i + 1) vals hrest
          | ok v => exact ih (i + 1) (vals ++ [v]) hrest

theorem parsePayloads_ok {α : Type} (parse : PayloadParser α) (r : PrespecifiedRequest)
    (payloads : List (Option (List Nat)))
    (h : ∀ j b, payloads[j]? = some (some b) → j < r.argGroups.length) :
    parsePayloads parse r payloads = .ok (parsedSamples parse r payloads) := by
  have := parsePayloadsLoop_ok parse r payloads 0 [] (by simpa using h)
  simpa [parsePayloads] using this

theorem parsePayloads_panic {α : Type} (parse : PayloadParser α) (r : PrespecifiedRequest)
    (payloads : List (Option (List Nat)))
    (h : ∃ j b, payloads[j]? = some (some b) ∧ r.argGroups.length ≤ j) :
    parsePayloads parse r payloads = .error .indexOutOfRange := by
  obtain ⟨j, b, hj, hle⟩ := h
  exact parsePayloadsLoop_panic parse r payloads 0 [] ⟨j, b, hj, by omega⟩

theorem parsedSamples_eq_nil {α : Type} (parse : PayloadParser α) (r : PrespecifiedRequest)
    (payloads : List (Option (List Nat)))
    (h : ∀ (j : Nat) (b : List Nat), payloads[j]? = some (some b) →
      ∃ (args : List String) (e : GoError), r.argGroups[j]? = some args ∧ parse b r.Granularity args = .error e) :
    parsedSamples parse r payloads = [] := by
  unfold parsedSamples
  rw [List.filterMap_eq_nil_iff]
  rintro ⟨p, a⟩ hmem
  obtain ⟨j, hj⟩ := List.mem_iff_getElem?.1 hmem
  obtain ⟨hpj, haj⟩ := List.getElem?_zip_eq_some.1 hj
  cases p with
  | none => rfl
  | some b =>
    obtain ⟨args, e, hargs, hperr⟩ := h j b hpj
    have : args = a := by rw [haj] at hargs; exact (Option.some.inj hargs).symm
    subst this
    simp [hperr]

/-! ### Binary digits and exponents -/

theorem bitLen_zero (fuel : Nat) : bitLen fuel 0 = 0 := by
  cases fuel <;> simp [bitLen]

theorem bitLen_spec : ∀ (fuel n : Nat), n ≤ fuel → 0 < n →
    2 ^ (bitLen fuel n - 1) ≤ n ∧ n < 2 ^ bitLen fuel n := by
  intro fuel
  induction fuel with
  | zero => intro n h1 h2; omega
  | succ fuel ih =>
    intro n hle hpos
    have hn0 : n ≠ 0 := by omega
    rw [bitLen, if_neg hn0]
    by_cases hhalf : n / 2 = 0
    · have hn1 : n = 1 := by omega
      subst hn1
      simp [bitLen_zero]
    · have hpos2 : 0 < n / 2 := Nat.pos_of_ne_zero hhalf
      obtain ⟨hlo, hhi⟩ := ih (n / 2) (by omega) hpos2
      have hb : 1 ≤ bitLen fuel (n / 2) := by
        by_contra hb0
        have : bitLen fuel (n / 2) = 0 := by omega
        rw [this] at hhi
        omega
      have hsplit : bitLen fuel (n / 2) = (bitLen fuel (n / 2) - 1) + 1 := by omega
      constructor
      · rw [Nat.add_sub_cancel, hsplit, pow_succ]
        omega
      · rw [pow_succ]
        omega

/-- The power of two with an integer exponent, as a quotient of two natural powers. -/
theorem zpow_two_split (k : Int) :
    (2 : ℚ) ^ k = (2 : ℚ) ^ k.toNat / (2 : ℚ) ^ (-k).toNat := by
  rcases le_or_lt 0 k with hk | hk
  · have h1 : (-k).toNat = 0 := by omega
    have h2 : (k.toNat : Int) = k := Int.toNat_of_nonneg hk
    rw [h1, pow_zero, div_one, ← zpow_natCast, h2]
  · have h1 : k.toNat = 0 := by omega
    have h2 : ((-k).toNat : Int) = -k := Int.toNat_of_nonneg (by omega)
    rw [h1, pow_zero, one_div, ← zpow_natCast, h2, zpow_neg, inv_inv]

theorem floorLog2_spec (n d : Nat) (hn : 0 < n) (hd : 0 < d) :
    (2 : ℚ) ^ (floorLog2 n d) ≤ (n : ℚ) / d ∧ (n : ℚ) / d < (2 : ℚ) ^ (floorLog2 n d + 1) := by
  obtain ⟨hnlo, hnhi⟩ := bitLen_spec n n le_rfl hn
  obtain ⟨hdlo, hdhi⟩ := bitLen_spec d d le_rfl hd
  have hbn : 1 ≤ bitLen n n := by
    by_contra h0
    have : bitLen n n = 0 := by omega
    rw [this] at hnhi; omega
  have hbd : 1 ≤ bitLen d d := by
    by_contra h0
    have : bitLen d d = 0 := by omega
    rw [this] at hdhi; omega
  have hnQ : (0 : ℚ) < n := by exact_mod_cast hn
  have hdQ : (0 : ℚ) < d := by exact_mod_cast hd
  -- rational forms of the digit bounds
  have hnlo' : (2 : ℚ) ^ ((bitLen n n : Int) - 1) ≤ n := by
    have : ((bitLen n n : Int) - 1) = ((bitLen n n - 1 : Nat) : Int) := by omega
    rw [this, zpow_natCast]; exact_mod_cast hnlo
  have hnhi' : (n : ℚ) < (2 : ℚ) ^ (bitLen n n : Int) := by
    rw [zpow_natCast]; exact_mod_cast hnhi
  have hdlo' : (2 : ℚ) ^ ((bitLen d d : Int) - 1) ≤ d := by
    have : ((bitLen d d : Int) - 1) = ((bitLen d d - 1 : Nat) : Int) := by omega
    rw [this, zpow_natCast]; exact_mod_cast hdlo
  have hdhi' : (d : ℚ) < (2 : ℚ) ^ (bitLen d d : Int) := by
    rw [zpow_natCast]; exact_mod_cast hdhi
  have h2 : (0 : ℚ) < 2 := by norm_num
  have h2ne : (2 : ℚ) ≠ 0 := by norm_num
  -- the test of the definition
  have htest : ∀ k : Int,
      (d * 2 ^ k.toNat ≤ n * 2 ^ (-k).toNat) ↔ (2 : ℚ) ^ k ≤ (n : ℚ) / d := by
    intro k
    rw [zpow_two_split k, le_div_iff₀ hdQ, div_mul_eq_mul_div,
      div_le_iff₀ (pow_pos h2 _)]
    constructor
    · intro h
      have : ((d * 2 ^ k.toNat : Nat) : ℚ) ≤ ((n * 2 ^ (-k).toNat : Nat) : ℚ) := by
        exact_mod_cast h
      push_cast at this
      linarith
    · intro h
      have : ((d * 2 ^ k.toNat : Nat) : ℚ) ≤ ((n * 2 ^ (-k).toNat : Nat) : ℚ) := by
        push_cast; linarith
      exact_mod_cast this
  unfold floorLog2
  simp only
  split
  · rename_i hk
    refine ⟨(htest _).1 hk, ?_⟩
    rw [div_lt_iff₀ hdQ]
    calc (n : ℚ) < (2 : ℚ) ^ (bitLen n n : Int) := hnhi'
      _ = (2 : ℚ) ^ ((bitLen n n : Int) - (bitLen d d : Int) + 1) *
            (2 : ℚ) ^ ((bitLen d d : Int) - 1) := by
          rw [← zpow_add₀ h2ne]; congr 1; ring
      _ ≤ (2 : ℚ) ^ ((bitLen n n : Int) - (bitLen d d : Int) + 1) * d :=
          mul_le_mul_of_nonneg_left hdlo' (le_of_lt (zpow_pos h2 _))
  · rename_i hk
    have hlt : (n : ℚ) / d < (2 : ℚ) ^ ((bitLen n n : Int) - (bitLen d d : Int)) :=
      lt_of_not_le (fun hle => hk ((htest _).2 hle))
    refine ⟨?_, by simpa using hlt⟩
    rw [le_div_iff₀ hdQ]
    calc (2 : ℚ) ^ ((bitLen n n : Int) - (bitLen d d : Int) - 1) * d
        ≤ (2 : ℚ) ^ ((bitLen n n : Int) - (bitLen d d : Int) - 1) *
            (2 : ℚ) ^ (bitLen d d : Int) :=
          mul_le_mul_of_nonneg_left (le_of_lt hdhi') (le_of_lt (zpow_pos h2 _))
      _ = (2 : ℚ) ^ ((bitLen n n : Int) - 1) := by
          rw [← zpow_add₀ h2ne]; congr 1; ring
      _ ≤ n := hnlo'

/-- The exponent of a quotient that is at least a power of two. -/
theorem floorLog2_ge (n d : Nat) (hn : 0 < n) (hd : 0 < d) (k : Int)
    (h : (2 : ℚ) ^ k ≤ (n : ℚ) / d) : k ≤ floorLog2 n d := by
  by_contra hlt
  have hlt' : floorLog2 n d + 1 ≤ k := by omega
  have := (floorLog2_spec n d hn hd).2
  have hmono : (2 : ℚ) ^ (floorLog2 n d + 1) ≤ (2 : ℚ) ^ k :=
    zpow_le_zpow_right₀ (by norm_num) hlt'
  linarith

/-- The exponent of a quotient that is below a power of two. -/
theorem floorLog2_lt (n d : Nat) (hn : 0 < n) (hd : 0 < d) (k : Int)
    (h : (n : ℚ) / d < (2 : ℚ) ^ k) : floorLog2 n d < k := by
  by_contra hge
  have hge' : k ≤ floorLog2 n d := by omega
  have := (floorLog2_spec n d hn hd).1
  have hmono : (2 : ℚ) ^ k ≤ (2 : ℚ) ^ (floorLog2 n d) :=
    zpow_le_zpow_right₀ (by norm_num) hge'
  linarith

/-! ### Rounding to `float64` -/

/-- The function `F64.round` on a positive quotient, unfolded: with `t` the
exponent of the last kept digit, it encodes a natural number `q1` that is
within 1 of the scaled quotient, and equal to it when that is an integer. -/
theorem round_eq (neg : Bool) (n d : Nat) (hn : 0 < n) (hd : 0 < d) :
    ∃ q1 : Nat,
      (n : ℚ) / d * (2 : ℚ) ^ (-(max (floorLog2 n d) (-1022) - 52)) - 1 < q1 ∧
      (q1 : ℚ) ≤ (n : ℚ) / d * (2 : ℚ) ^ (-(max (floorLog2 n d) (-1022) - 52)) + 1 ∧
      (∀ z : Nat, (n : ℚ) / d * (2 : ℚ) ^ (-(max (floorLog2 n d) (-1022) - 52)) = z → q1 = z) ∧
      F64.round neg n d =
        if q1 = 0 then .fin neg 0 0
        else if q1 = 2 ^ 53 then
          (if 971 < max (floorLog2 n d) (-1022) - 52 + 1 then .inf neg
            else .fin neg (2 ^ 52) (max (floorLog2 n d) (-1022) - 52 + 1))
        else if 971 < max (floorLog2 n d) (-1022) - 52 then .inf neg
        else .fin neg q1 (max (floorLog2 n d) (-1022) - 52) := by
  have h2 : (0 : ℚ) < 2 := by norm_num
  have h2ne : (2 : ℚ) ≠ 0 := by norm_num
  have hdQ : (0 : ℚ) < d := by exact_mod_cast hd
  generalize ht : max (floorLog2 n d) (-1022) - 52 = t
  have hDpos : 0 < d * 2 ^ t.toNat := Nat.mul_pos hd (pow_pos (by decide) _)
  have hDQ : (0 : ℚ) < ((d * 2 ^ t.toNat : Nat) : ℚ) := by exact_mod_cast hDpos
  -- the scaled quotient
  have hy : (n : ℚ) / d * (2 : ℚ) ^ (-t) =
      ((n * 2 ^ (-t).toNat : Nat) : ℚ) / ((d * 2 ^ t.toNat : Nat) : ℚ) := by
    rw [zpow_two_split (-t), neg_neg]
    push_cast
    field_simp
  have hq := Nat.div_add_mod (n * 2 ^ (-t).toNat) (d * 2 ^ t.toNat)
  have hr := Nat.mod_lt (n * 2 ^ (-t).toNat) hDpos
  set N := n * 2 ^ (-t).toNat with hN
  set D := d * 2 ^ t.toNat with hD
  have hqlo : ((N / D : Nat) : ℚ) ≤ (N : ℚ) / (D : ℚ) := by
    rw [le_div_iff₀ hDQ]
    have : N / D * D ≤ N := Nat.div_mul_le_self N D
    exact_mod_cast this
  have hqhi : (N : ℚ) / (D : ℚ) < ((N / D : Nat) : ℚ) + 1 := by
    rw [div_lt_iff₀ hDQ]
    have : N < (N / D + 1) * D := by
      have := Nat.lt_succ_iff.2 (le_refl (N / D))
      calc N = D * (N / D) + N % D := hq.symm
        _ < D * (N / D) + D := by omega
        _ = (N / D + 1) * D := by ring
    exact_mod_cast this
  -- the rounded integer
  have hq1 : ∀ q1 : Nat, N / D ≤ q1 → q1 ≤ N / D + 1 →
      (n : ℚ) / d * (2 : ℚ) ^ (-t) - 1 < q1 ∧ (q1 : ℚ) ≤ (n : ℚ) / d * (2 : ℚ) ^ (-t) + 1 := by
    intro q1 hlo hhi
    have hlo' : ((N / D : Nat) : ℚ) ≤ q1 := by exact_mod_cast hlo
    have hhi' : (q1 : ℚ) ≤ ((N / D : Nat) : ℚ) + 1 := by exact_mod_cast hhi
    rw [hy]
    constructor <;> linarith
  have hmod : N / D % 2 ≤ 1 := by omega
  obtain ⟨q1, hq1def, hlo, hhi⟩ : ∃ q1 : Nat,
      q1 = (if 2 * (N % D) < D then N / D
        else if D < 2 * (N % D) then N / D + 1 else N / D + N / D % 2) ∧
      N / D ≤ q1 ∧ q1 ≤ N / D + 1 := by
    refine ⟨_, rfl, ?_, ?_⟩ <;> split_ifs <;> omega
  have hexact : ∀ z : Nat, (n : ℚ) / d * (2 : ℚ) ^ (-t) = z → q1 = z := by
    intro z hz
    rw [hy, div_eq_iff (ne_of_gt hDQ)] at hz
    have hz' : N = z * D := by exact_mod_cast hz
    have hrem : N % D = 0 := by rw [hz']; exact Nat.mul_mod_left z D
    have hquot : N / D = z := by rw [hz']; exact Nat.mul_div_cancel z hDpos
    rw [hq1def, hrem, if_pos (by omega), hquot]
  refine ⟨q1, (hq1 q1 hlo hhi).1, (hq1 q1 hlo hhi).2, hexact, ?_⟩
  unfold F64.round
  rw [if_neg (by omega : ¬ n = 0)]
  simp only [ht]
  rw [← hN, ← hD, ← hq1def]

/-- What `F64.round` returns for a positive quotient: an infinity, or the finite
number `q1 * 2^t` for the natural number `q1` of `round_eq`. -/
theorem round_spec (n d : Nat) (hn : 0 < n) (hd : 0 < d) :
    ∃ q1 : Nat,
      (n : ℚ) / d * (2 : ℚ) ^ (-(max (floorLog2 n d) (-1022) - 52)) - 1 < q1 ∧
      (q1 : ℚ) ≤ (n : ℚ) / d * (2 : ℚ) ^ (-(max (floorLog2 n d) (-1022) - 52)) + 1 ∧
      (∀ z : Nat, (n : ℚ) / d * (2 : ℚ) ^ (-(max (floorLog2 n d) (-1022) - 52)) = z → q1 = z) ∧
      ((F64.round false n d = .inf false ∧ 970 < max (floorLog2 n d) (-1022) - 52) ∨
        ∃ m e, F64.round false n d = .fin false m e ∧
          (m : ℚ) * (2 : ℚ) ^ e = q1 * (2 : ℚ) ^ (max (floorLog2 n d) (-1022) - 52)) := by
  have h2ne : (2 : ℚ) ≠ 0 := by norm_num
  obtain ⟨q1, hlo, hhi, hexact, hround⟩ := round_eq false n d hn hd
  refine ⟨q1, hlo, hhi, hexact, ?_⟩
  rw [hround]
  generalize max (floorLog2 n d) (-1022) - 52 = t
  split_ifs with h0 h53 ho ho
  · right; exact ⟨0, 0, rfl, by simp [h0]⟩
  · left; exact ⟨rfl, by omega⟩
  · right
    refine ⟨2 ^ 52, t + 1, rfl, ?_⟩
    rw [h53, zpow_add₀ h2ne]
    push_cast
    ring
  · left; exact ⟨rfl, by omega⟩
  · right; exact ⟨q1, t, rfl, rfl⟩

theorem round_shape (n d : Nat) :
    (∃ m e, F64.round false n d = .fin false m e) ∨ F64.round false n d = .inf false := by
  unfold F64.round
  simp only
  split_ifs <;> first | exact Or.inr rfl | exact Or.inl ⟨_, _, rfl⟩

theorem lt_fin_pos (m1 m2 : Nat) (e1 e2 : Int) :
    F64.lt (.fin false m1 e1) (.fin false m2 e2) = true ↔
      (m1 : ℚ) * (2 : ℚ) ^ e1 < (m2 : ℚ) * (2 : ℚ) ^ e2 := by
  have h2 : (0 : ℚ) < 2 := by norm_num
  have h2ne : (2 : ℚ) ≠ 0 := by norm_num
  have hscale : ∀ (m : Nat) (e e0 : Int), e0 ≤ e →
      ((m * 2 ^ (e - e0).toNat : Nat) : ℚ) * (2 : ℚ) ^ e0 = (m : ℚ) * (2 : ℚ) ^ e := by
    intro m e e0 h
    have hc : ((e - e0).toNat : Int) = e - e0 := Int.toNat_of_nonneg (by omega)
    push_cast
    rw [← zpow_natCast, hc, mul_assoc, ← zpow_add₀ h2ne]
    congr 2; ring
  unfold F64.lt
  simp only [Bool.false_eq_true, if_false, one_mul, decide_eq_true_eq]
  rw [← hscale m1 e1 (min e1 e2) (min_le_left _ _), ← hscale m2 e2 (min e1 e2) (min_le_right _ _)]
  rw [mul_lt_mul_right (zpow_pos h2 _)]
  constructor
  · intro h; exact_mod_cast h
  · intro h; exact_mod_cast h

set_option maxRecDepth 100000 in
theorem round_six_tenths : F64.round false 6 10 = .fin false 5404319552844595 (-53) := by
  decide

/-- A quotient of at least 3/5 does not round below the `float64` constant `0.6`. -/
theorem round_not_lt_six_tenths (n d : Nat) (hn : 0 < n) (hd : 0 < d)
    (h : (3 : ℚ) / 5 ≤ (n : ℚ) / d) :
    F64.lt (F64.round false n d) (.fin false 5404319552844595 (-53)) = false := by
  have h2 : (0 : ℚ) < 2 := by norm_num
  have h2ne : (2 : ℚ) ≠ 0 := by norm_num
  have hE : -1 ≤ floorLog2 n d :=
    floorLog2_ge n d hn hd (-1) (le_trans (by norm_num) h)
  have hmax : max (floorLog2 n d) (-1022) = floorLog2 n d := max_eq_left (by omega)
  obtain ⟨q1, hlo, _, _, hres⟩ := round_spec n d hn hd
  rw [hmax] at hlo hres
  rcases hres with ⟨hinf, _⟩ | ⟨m, e, hfin, hval⟩
  · rw [hinf]; rfl
  · rw [hfin, Bool.eq_false_iff]
    intro hlt
    have hlt' := (lt_fin_pos m 5404319552844595 e (-53)).1 hlt
    rw [hval] at hlt'
    rcases Int.lt_or_le (floorLog2 n d) 0 with hneg | hnonneg
    · -- the quotient lies in [1/2, 1)
      have hEeq : floorLog2 n d = -1 := by omega
      rw [hEeq] at hlo hlt'
      have hx : (5404319552844594 : ℚ) < (n : ℚ) / d * (2 : ℚ) ^ (-((-1 : Int) - 52)) - 1 := by
        have : (2 : ℚ) ^ (-((-1 : Int) - 52)) = 9007199254740992 := by norm_num
        rw [this]
        linarith
      have hq : (5404319552844594 : ℚ) < q1 := lt_trans hx hlo
      have hqN : 5404319552844594 < q1 := by exact_mod_cast hq
      have hqQ : (5404319552844595 : ℚ) ≤ q1 := by exact_mod_cast hqN
      have hpos : (0 : ℚ) < (2 : ℚ) ^ ((-1 : Int) - 52) := zpow_pos h2 _
      have hmul := mul_le_mul_of_nonneg_right hqQ (le_of_lt hpos)
      have hexp : ((-1 : Int) - 52) = -53 := by norm_num
      rw [hexp] at hmul hlt'
      push_cast at hlt'
      linarith
    · -- the quotient is at least 1
      have hxE := (floorLog2_spec n d hn hd).1
      have hpos : (0 : ℚ) < (2 : ℚ) ^ (-(floorLog2 n d - 52)) := zpow_pos h2 _
      have hscaled : (2 : ℚ) ^ (52 : Int) ≤ (n : ℚ) / d * (2 : ℚ) ^ (-(floorLog2 n d - 52)) := by
        have := mul_le_mul_of_nonneg_right hxE (le_of_lt hpos)
        rw [← zpow_add₀ h2ne] at this
        have he : floorLog2 n d + -(floorLog2 n d - 52) = 52 := by ring
        rw [he] at this
        exact this
      have h52 : (2 : ℚ) ^ (52 : Int) = 4503599627370496 := by norm_num
      rw [h52] at hscaled
      have hq : (4503599627370495 : ℚ) < q1 := by linarith
      have hqN : 4503599627370495 < q1 := by exact_mod_cast hq
      have hqQ : (2 : ℚ) ^ (52 : Int) ≤ q1 := by
        rw [h52]; exact_mod_cast hqN
      have hpos' : (0 : ℚ) < (2 : ℚ) ^ (floorLog2 n d - 52) := zpow_pos h2 _
      have hmul := mul_le_mul_of_nonneg_right hqQ (le_of_lt hpos')
      rw [← zpow_add₀ h2ne] at hmul
      have he : (52 : Int) + (floorLog2 n d - 52) = floorLog2 n d := by ring
      rw [he] at hmul
      have hone : (1 : ℚ) ≤ (2 : ℚ) ^ (floorLog2 n d) := by
        have := zpow_le_zpow_right₀ (a := (2 : ℚ)) (by norm_num) hnonneg
        simpa using this
      have hc : ((5404319552844595 : Nat) : ℚ) * (2 : ℚ) ^ (-53 : Int) < 1 := by norm_num
      linarith

/-- A quotient in the normal range that is more than one unit in the last place
below 3/5 rounds below the `float64` constant `0.6`. -/
theorem round_lt_six_tenths (n d : Nat) (hn : 0 < n) (hd : 0 < d)
    (hnorm : (2 : ℚ) ^ (-1022 : Int) ≤ (n : ℚ) / d)
    (h : (n : ℚ) / d * 9007199254740992 + 1 < 5404319552844595) :
    F64.lt (F64.round false n d) (.fin false 5404319552844595 (-53)) = true := by
  have h2 : (0 : ℚ) < 2 := by norm_num
  have h2ne : (2 : ℚ) ≠ 0 := by norm_num
  have hElo : -1022 ≤ floorLog2 n d := floorLog2_ge n d hn hd (-1022) hnorm
  have hEhi : floorLog2 n d < 0 :=
    floorLog2_lt n d hn hd 0 (by rw [zpow_zero]; linarith)
  have hmax : max (floorLog2 n d) (-1022) = floorLog2 n d := max_eq_left hElo
  obtain ⟨q1, _, hhi, _, hres⟩ := round_spec n d hn hd
  rw [hmax] at hhi hres
  rcases hres with ⟨_, hbig⟩ | ⟨m, e, hfin, hval⟩
  · omega
  · rw [hfin, lt_fin_pos, hval]
    rcases Int.lt_or_le (floorLog2 n d) (-1) with hsmall | hhalf
    · -- the quotient is below 1/2
      have hxE := (floorLog2_spec n d hn hd).2
      have hpos : (0 : ℚ) < (2 : ℚ) ^ (-(floorLog2 n d - 52)) := zpow_pos h2 _
      have hscaled : (n : ℚ) / d * (2 : ℚ) ^ (-(floorLog2 n d - 52)) < (2 : ℚ) ^ (53 : Int) := by
        have := mul_lt_mul_of_pos_right hxE hpos
        rw [← zpow_add₀ h2ne] at this
        have he : floorLog2 n d + 1 + -(floorLog2 n d - 52) = 53 := by ring
        rw [he] at this
        exact this
      have h53 : (2 : ℚ) ^ (53 : Int) = 9007199254740992 := by norm_num
      rw [h53] at hscaled
      have hq : (q1 : ℚ) < 9007199254740993 := by linarith
      have hqN : q1 < 9007199254740993 := by exact_mod_cast hq
      have hqQ : (q1 : ℚ) ≤ (2 : ℚ) ^ (53 : Int) := by
        rw [h53]
        have : q1 ≤ 9007199254740992 := by omega
        exact_mod_cast this
      have hpos' : (0 : ℚ) < (2 : ℚ) ^ (floorLog2 n d - 52) := zpow_pos h2 _
      have hmul := mul_le_mul_of_nonneg_right hqQ (le_of_lt hpos')
      rw [← zpow_add₀ h2ne] at hmul
      have he : (53 : Int) + (floorLog2 n d - 52) = floorLog2 n d + 1 := by ring
      rw [he] at hmul
      have hhalf : (2 : ℚ) ^ (floorLog2 n d + 1) ≤ (2 : ℚ) ^ (-1 : Int) :=
        zpow_le_zpow_right₀ (by norm_num) (by omega)
      have hc : (2 : ℚ) ^ (-1 : Int) < ((5404319552844595 : Nat) : ℚ) * (2 : ℚ) ^ (-53 : Int) := by
        norm_num
      linarith
    · -- the quotient lies in [1/2, 1)
      have hEeq : floorLog2 n d = -1 := by omega
      rw [hEeq] at hhi ⊢
      have hpow : (2 : ℚ) ^ (-((-1 : Int) - 52)) = 9007199254740992 := by norm_num
      rw [hpow] at hhi
      have hq : (q1 : ℚ) < ((5404319552844595 : Nat) : ℚ) := by
        push_cast; linarith
      have hexp : ((-1 : Int) - 52) = -53 := by norm_num
      rw [hexp]
      exact mul_lt_mul_of_pos_right hq (zpow_pos h2 _)

/-! ### Conversion and division -/

theorem ofInt_natCast (n : Nat) : F64.ofInt (n : Int) = F64.round false n 1 := by
  unfold F64.ofInt
  have h : decide ((n : Int) < 0) = false := by simp
  rw [h, Int.natAbs_ofNat]

/-- The conversion of a positive integer below `2^53` is exact. -/
theorem ofInt_exact (n : Nat) (hn : 0 < n) (hlt : n < 2 ^ 53) :
    ∃ m e, F64.ofInt (n : Int) = .fin false m e ∧ (m : ℚ) * (2 : ℚ) ^ e = n ∧ m ≠ 0 := by
  have h2 : (0 : ℚ) < 2 := by norm_num
  have h2ne : (2 : ℚ) ≠ 0 := by norm_num
  have hnQ : (0 : ℚ) < n := by exact_mod_cast hn
  have hx : ((n : ℚ) / ((1 : Nat) : ℚ)) = n := by simp
  have hElo : 0 ≤ floorLog2 n 1 :=
    floorLog2_ge n 1 hn (by decide) 0 (by
      rw [hx, zpow_zero]; exact_mod_cast hn)
  have hEhi : floorLog2 n 1 < 53 :=
    floorLog2_lt n 1 hn (by decide) 53 (by
      rw [hx]
      have : (n : ℚ) < ((2 ^ 53 : Nat) : ℚ) := by exact_mod_cast hlt
      have h53 : (2 : ℚ) ^ (53 : Int) = ((2 ^ 53 : Nat) : ℚ) := by norm_num
      rw [h53]; exact this)
  have hmax : max (floorLog2 n 1) (-1022) = floorLog2 n 1 := max_eq_left (by omega)
  obtain ⟨q1, _, _, hexact, hres⟩ := round_spec n 1 hn (by decide)
  rw [hmax, hx] at hexact
  rw [hmax] at hres
  have hc : ((52 - floorLog2 n 1).toNat : Int) = 52 - floorLog2 n 1 :=
    Int.toNat_of_nonneg (by omega)
  have hq1 : q1 = n * 2 ^ (52 - floorLog2 n 1).toNat := by
    apply hexact
    push_cast
    rw [← zpow_natCast, hc]
    congr 2; ring
  rw [ofInt_natCast]
  rcases hres with ⟨_, hbig⟩ | ⟨m, e, hfin, hval⟩
  · omega
  · have hvaln : (m : ℚ) * (2 : ℚ) ^ e = n := by
      rw [hval, hq1]
      push_cast
      rw [← zpow_natCast, hc, mul_assoc, ← zpow_add₀ h2ne]
      have : 52 - floorLog2 n 1 + (floorLog2 n 1 - 52) = 0 := by ring
      rw [this, zpow_zero, mul_one]
    refine ⟨m, e, hfin, hvaln, ?_⟩
    intro hm0
    have hzero : (n : ℚ) = 0 := by rw [← hvaln, hm0]; simp
    exact absurd hzero (ne_of_gt hnQ)

/-- The conversion of an integer of at least `2^53` is an infinity or a finite
number of at least `2^53`. -/
theorem ofInt_large (n : Nat) (hge : 2 ^ 53 ≤ n) :
    F64.ofInt (n : Int) = .inf false ∨
      ∃ m e, F64.ofInt (n : Int) = .fin false m e ∧
        (2 : ℚ) ^ (53 : Int) ≤ (m : ℚ) * (2 : ℚ) ^ e := by
  have h2 : (0 : ℚ) < 2 := by norm_num
  have h2ne : (2 : ℚ) ≠ 0 := by norm_num
  have hn : 0 < n := lt_of_lt_of_le (by decide) hge
  have hx : ((n : ℚ) / ((1 : Nat) : ℚ)) = n := by simp
  have hElo : 53 ≤ floorLog2 n 1 :=
    floorLog2_ge n 1 hn (by decide) 53 (by
      rw [hx]
      have : ((2 ^ 53 : Nat) : ℚ) ≤ (n : ℚ) := by exact_mod_cast hge
      have h53 : (2 : ℚ) ^ (53 : Int) = ((2 ^ 53 : Nat) : ℚ) := by norm_num
      rw [h53]; exact this)
  have hmax : max (floorLog2 n 1) (-1022) = floorLog2 n 1 := max_eq_left (by omega)
  obtain ⟨q1, hlo, _, _, hres⟩ := round_spec n 1 hn (by decide)
  rw [hmax] at hlo hres
  rw [ofInt_natCast]
  rcases hres with ⟨hinf, _⟩ | ⟨m, e, hfin, hval⟩
  · exact Or.inl hinf
  · right
    refine ⟨m, e, hfin, ?_⟩
    rw [hval]
    have hxE := (floorLog2_spec n 1 hn (by decide)).1
    have hpos : (0 : ℚ) < (2 : ℚ) ^ (-(floorLog2 n 1 - 52)) := zpow_pos h2 _
    have hscaled : (2 : ℚ) ^ (52 : Int) ≤
        (n : ℚ) / ((1 : Nat) : ℚ) * (2 : ℚ) ^ (-(floorLog2 n 1 - 52)) := by
      have := mul_le_mul_of_nonneg_right hxE (le_of_lt hpos)
      rw [← zpow_add₀ h2ne] at this
      have he : floorLog2 n 1 + -(floorLog2 n 1 - 52) = 52 := by ring
      rw [he] at this
      exact this
    have h52 : (2 : ℚ) ^ (52 : Int) = 4503599627370496 := by norm_num
    rw [h52] at hscaled
    have hq : (4503599627370495 : ℚ) < q1 := by linarith
    have hqN : 4503599627370495 < q1 := by exact_mod_cast hq
    have hqQ : (2 : ℚ) ^ (52 : Int) ≤ q1 := by
      rw [h52]; exact_mod_cast hqN
    have hpos' : (0 : ℚ) < (2 : ℚ) ^ (floorLog2 n 1 - 52) := zpow_pos h2 _
    have hmul := mul_le_mul_of_nonneg_right hqQ (le_of_lt hpos')
    rw [← zpow_add₀ h2ne] at hmul
    have he : (52 : Int) + (floorLog2 n 1 - 52) = floorLog2 n 1 := by ring
    rw [he] at hmul
    exact le_trans (zpow_le_zpow_right₀ (by norm_num) hElo) hmul

theorem div_fin_pos (m1 m2 : Nat) (e1 e2 : Int) (h : m2 ≠ 0) :
    F64.div (.fin false m1 e1) (.fin false m2 e2) =
      F64.round false (m1 * 2 ^ (e1 - e2).toNat) (m2 * 2 ^ (e2 - e1).toNat) := by
  simp [F64.div, h]

theorem div_fin_pos_quotient (m1 m2 : Nat) (e1 e2 : Int) (h : m2 ≠ 0) :
    ((m1 * 2 ^ (e1 - e2).toNat : Nat) : ℚ) / ((m2 * 2 ^ (e2 - e1).toNat : Nat) : ℚ) =
      ((m1 : ℚ) * (2 : ℚ) ^ e1) / ((m2 : ℚ) * (2 : ℚ) ^ e2) := by
  have h2ne : (2 : ℚ) ≠ 0 := by norm_num
  have hm : (m2 : ℚ) ≠ 0 := by exact_mod_cast h
  have hsplit := zpow_two_split (e1 - e2)
  have hneg : -(e1 - e2) = e2 - e1 := by ring
  rw [hneg, zpow_sub₀ h2ne] at hsplit
  push_cast
  have hp1 : (2 : ℚ) ^ (e2 - e1).toNat ≠ 0 := pow_ne_zero _ h2ne
  have hp2 : (2 : ℚ) ^ e2 ≠ 0 := zpow_ne_zero _ h2ne
  rw [div_eq_div_iff (mul_ne_zero hm hp1) (mul_ne_zero hm hp2)]
  rw [div_eq_div_iff hp2 hp1] at hsplit
  linear_combination (m1 : ℚ) * (m2 : ℚ) * hsplit.symm

/-- Rounding a quotient that is a non-zero `float64` in canonical form returns
that `float64`. -/
theorem round_exact (neg : Bool) (m : Nat) (e : Int) (n d : Nat) (hn : 0 < n) (hd : 0 < d)
    (hcan : (2 ^ 52 ≤ m ∧ m < 2 ^ 53 ∧ -1074 ≤ e ∧ e ≤ 971) ∨
      (0 < m ∧ m < 2 ^ 52 ∧ e = -1074))
    (hq : (n : ℚ) / d = (m : ℚ) * (2 : ℚ) ^ e) :
    F64.round neg n d = .fin neg m e := by
  have h2 : (0 : ℚ) < 2 := by norm_num
  have h2ne : (2 : ℚ) ≠ 0 := by norm_num
  have hpe : (0 : ℚ) < (2 : ℚ) ^ e := zpow_pos h2 _
  have h52 : (2 : ℚ) ^ (52 : Int) = ((2 ^ 52 : Nat) : ℚ) := by norm_num
  have h53 : (2 : ℚ) ^ (53 : Int) = ((2 ^ 53 : Nat) : ℚ) := by norm_num
  have ht : max (floorLog2 n d) (-1022) - 52 = e := by
    rcases hcan with ⟨hlo, hhi, he1, _⟩ | ⟨_, hhi, he⟩
    · have hge : 52 + e ≤ floorLog2 n d := by
        apply floorLog2_ge n d hn hd
        rw [hq, zpow_add₀ h2ne, h52]
        have : ((2 ^ 52 : Nat) : ℚ) ≤ (m : ℚ) := by exact_mod_cast hlo
        exact mul_le_mul_of_nonneg_right this (le_of_lt hpe)
      have hlt : floorLog2 n d < 53 + e := by
        apply floorLog2_lt n d hn hd
        rw [hq, zpow_add₀ h2ne, h53]
        have : (m : ℚ) < ((2 ^ 53 : Nat) : ℚ) := by exact_mod_cast hhi
        exact mul_lt_mul_of_pos_right this hpe
      have : max (floorLog2 n d) (-1022) = floorLog2 n d := max_eq_left (by omega)
      omega
    · have hlt : floorLog2 n d < -1022 := by
        apply floorLog2_lt n d hn hd
        have hsplit : (2 : ℚ) ^ (-1022 : Int) = (2 : ℚ) ^ (52 : Int) * (2 : ℚ) ^ e := by
          rw [← zpow_add₀ h2ne, he]; norm_num
        rw [hq, hsplit, h52]
        have : (m : ℚ) < ((2 ^ 52 : Nat) : ℚ) := by exact_mod_cast hhi
        exact mul_lt_mul_of_pos_right this hpe
      have : max (floorLog2 n d) (-1022) = -1022 := max_eq_right (by omega)
      omega
  obtain ⟨q1, _, _, hexact, hround⟩ := round_eq neg n d hn hd
  rw [ht] at hexact hround
  have hq1 : q1 = m := by
    apply hexact
    rw [hq, mul_assoc, ← zpow_add₀ h2ne, add_neg_cancel, zpow_zero, mul_one]
  rw [hround, hq1]
  have hm0 : m ≠ 0 := by rcases hcan with ⟨h, _⟩ | ⟨h, _⟩ <;> omega
  have hm53 : m ≠ 2 ^ 53 := by rcases hcan with ⟨_, h, _⟩ | ⟨_, h, _⟩ <;> omega
  have he971 : ¬ 971 < e := by rcases hcan with ⟨_, _, _, h⟩ | ⟨_, _, h⟩ <;> omega
  rw [if_neg hm0, if_neg hm53, if_neg he971]

theorem div_fin (s1 s2 : Bool) (m1 m2 : Nat) (e1 e2 : Int) (h : m2 ≠ 0) :
    F64.div (.fin s1 m1 e1) (.fin s2 m2 e2) =
      F64.round (xor s1 s2) (m1 * 2 ^ (e1 - e2).toNat) (m2 * 2 ^ (e2 - e1).toNat) := by
  simp [F64.div, h]

/-- On `float64`, adding a canonical non-zero finite value to `0.0` and dividing by
`float64(1)` gives the value back. -/
theorem mean_singleton_fin (s : Bool) (m : Nat) (e : Int)
    (hcan : (2 ^ 52 ≤ m ∧ m < 2 ^ 53 ∧ -1074 ≤ e ∧ e ≤ 971) ∨
      (0 < m ∧ m < 2 ^ 52 ∧ e = -1074)) :
    F64.div (F64.add (.fin false 0 0) (.fin s m e)) (F64.ofInt 1) = .fin s m e := by
  have h2 : (0 : ℚ) < 2 := by norm_num
  have h2ne : (2 : ℚ) ≠ 0 := by norm_num
  have hm : 0 < m := by rcases hcan with ⟨h, _⟩ | ⟨h, _⟩ <;> omega
  have hone : F64.ofInt 1 = .fin false (2 ^ 52) (-52) := by decide
  -- the sum
  have hpow : 0 < m * 2 ^ (e - min 0 e).toNat := Nat.mul_pos hm (pow_pos (by decide) _)
  have hadd : F64.add (.fin false 0 0) (.fin s m e) = .fin s m e := by
    have hstep : F64.add (.fin false 0 0) (.fin s m e) =
        F64.round s (m * 2 ^ (e - min 0 e).toNat * 2 ^ (min 0 e).toNat)
          (2 ^ (-(min 0 e)).toNat) := by
      have hposZ : (0 : Int) < (m : Int) * 2 ^ (e - min 0 e).toNat := by
        have : (0 : Int) < ((m * 2 ^ (e - min 0 e).toNat : Nat) : Int) := by
          exact_mod_cast hpow
        simpa using this
      cases s
      · simp [F64.add, hposZ.ne', not_lt.2 hposZ.le, Int.natAbs_mul, Int.natAbs_pow]
      · simp [F64.add, hposZ.ne', hm, Int.natAbs_mul, Int.natAbs_pow]
    rw [hstep]
    apply round_exact s m e _ _ (Nat.mul_pos hpow (pow_pos (by decide) _))
      (pow_pos (by decide) _) hcan
    have hmin : min 0 e ≤ 0 := min_le_left _ _
    have hmin' : min 0 e ≤ e := min_le_right _ _
    have h1 : (min 0 e).toNat = 0 := by omega
    have hc1 : ((e - min 0 e).toNat : Int) = e - min 0 e := Int.toNat_of_nonneg (by omega)
    have hc2 : ((-(min 0 e)).toNat : Int) = -(min 0 e) := Int.toNat_of_nonneg (by omega)
    rw [h1]
    push_cast
    rw [mul_one, ← zpow_natCast, ← zpow_natCast, hc1, hc2, mul_div_assoc,
      ← zpow_sub₀ h2ne]
    congr 2; ring
  rw [hadd, hone, div_fin s false m (2 ^ 52) e (-52) (by decide), Bool.xor_false]
  apply round_exact s m e _ _ (Nat.mul_pos hm (pow_pos (by decide) _))
    (Nat.mul_pos (by decide) (pow_pos (by decide) _)) hcan
  rw [div_fin_pos_quotient m (2 ^ 52) e (-52) (by decide)]
  have : ((2 ^ 52 : Nat) : ℚ) * (2 : ℚ) ^ (-52 : Int) = 1 := by norm_num
  rw [this, div_one]

theorem F64.add_def (a b : F64) : a + b = F64.add a b := rfl

theorem F64.div_def (a b : F64) : a / b = F64.div a b := rfl

theorem F64.zero_def : (0 : F64) = .fin false 0 0 := rfl

theorem F64.natCast_def (n : Nat) : (n : F64) = F64.ofInt (n : Int) := rfl

theorem mean_singleton_cond {α : Type} [Zero α] [Add α] [Div α] [NatCast α] (x : α) :
    mean [x] = List.foldl (fun sum v => sum + v) 0 [x] / (([x].length : Nat) : α) := by
  unfold mean
  rw [if_neg (by simp)]

theorem mean_singleton_fold (x : F64) :
    List.foldl (fun sum v => sum + v) 0 [x] / (([x].length : Nat) : F64) =
      (0 + x) / ((1 : Nat) : F64) := by
  simp only [List.foldl, List.length, Nat.zero_add]

theorem mean_singleton_ops (x : F64) :
    (0 + x) / ((1 : Nat) : F64) =
      F64.div (F64.add (.fin false 0 0) x) (F64.ofInt ((1 : Nat) : Int)) := by
  rw [F64.add_def, F64.div_def, F64.zero_def, F64.natCast_def]

theorem ofInt_natCast_one : F64.ofInt ((1 : Nat) : Int) = F64.ofInt 1 := by
  rw [Nat.cast_one]

/-- The value of `mean` on a one-element `float64` slice, unfolded. -/
theorem mean_singleton_unfold (x : F64) :
    mean [x] = F64.div (F64.add (.fin false 0 0) x) (F64.ofInt 1) := by
  rw [mean_singleton_cond, mean_singleton_fold, mean_singleton_ops, ofInt_natCast_one]

/-- On `float64`, `(0.0 + x) / float64(1)` is `x` for every canonical `x` other
than negative zero, for which it is positive zero. -/
theorem mean_singleton_float64 (x : F64) (hc : x.canonical = true) :
    F64.div (F64.add (.fin false 0 0) x) (F64.ofInt 1) =
      if x = .fin true 0 0 then .fin false 0 0 else x := by
  have hone : F64.ofInt 1 = .fin false (2 ^ 52) (-52) := by decide
  cases x with
  | nan => rfl
  | inf s => cases s <;> rfl
  | fin s m e =>
    simp only [F64.canonical, Bool.or_eq_true, Bool.and_eq_true, decide_eq_true_eq] at hc
    rcases hc with (⟨hm, he⟩ | ⟨⟨⟨h1, h2⟩, h3⟩, h4⟩) | ⟨⟨h1, h2⟩, h3⟩
    · subst hm; subst he
      cases s <;> decide
    · have hne : F64.fin s m e ≠ .fin true 0 0 := by
        intro h; injection h with _ hm0 _; omega
      rw [if_neg hne]
      exact mean_singleton_fin s m e (Or.inl ⟨h1, h2, h3, h4⟩)
    · have hne : F64.fin s m e ≠ .fin true 0 0 := by
        intro h; injection h with _ hm0 _; omega
      rw [if_neg hne]
      exact mean_singleton_fin s m e (Or.inr ⟨h1, h2, h3⟩)

/-! ### The quorum test of `TimeAverage.Value` -/

/-- With an expected count of zero the `float64` quotient is `+Inf` or NaN, and
neither compares below `0.6`. -/
theorem quorum_test_zero (n : Nat) :
    F64.lt (F64.div (F64.ofInt (n : Int)) (F64.ofInt (0 : Int))) (F64.round false 6 10)
      = false := by
  have h0 : F64.ofInt (0 : Int) = .fin false 0 0 := by decide
  rw [h0, round_six_tenths, ofInt_natCast]
  rcases round_shape n 1 with ⟨m, e, hfin⟩ | hinf
  · rw [hfin]
    by_cases hm : m = 0
    · simp [F64.div, hm, F64.lt]
    · simp [F64.div, hm, F64.lt]
  · rw [hinf]; rfl

/-- With an expected count `m` between 1 and `2^50`, the `float64` test
`float64(n)/float64(m) < 0.6` decides the exact inequality `n/m < 3/5`. -/
theorem quorum_test_pos (n m : Nat) (hm : 0 < m) (hm' : m < 2 ^ 50) :
    F64.lt (F64.div (F64.ofInt (n : Int)) (F64.ofInt (m : Int))) (F64.round false 6 10)
      = decide (5 * n < 3 * m) := by
  have h2 : (0 : ℚ) < 2 := by norm_num
  have hmQ : (0 : ℚ) < m := by exact_mod_cast hm
  have hmQ' : (m : ℚ) < 1125899906842624 := by exact_mod_cast hm'
  obtain ⟨mm, em, hmfin, hmval, hmne⟩ := ofInt_exact m hm (by omega)
  rw [round_six_tenths, hmfin]
  rcases Nat.eq_zero_or_pos n with hn0 | hn
  · -- no sample at all
    subst hn0
    have h0 : F64.ofInt ((0 : Nat) : Int) = .fin false 0 0 := by decide
    rw [h0, div_fin_pos 0 mm 0 em hmne]
    have hr : F64.round false (0 * 2 ^ (0 - em).toNat) (mm * 2 ^ (em - 0).toNat)
        = .fin false 0 0 := by
      simp [F64.round]
    rw [hr]
    have hlt : F64.lt (.fin false 0 0) (.fin false 5404319552844595 (-53)) = true := by
      rw [lt_fin_pos]; norm_num
    rw [hlt]
    simp [hm]
  · have hnQ : (0 : ℚ) < n := by exact_mod_cast hn
    by_cases hq : 5 * n < 3 * m
    · -- below the quorum: the conversion of `n` is exact
      obtain ⟨mn, en, hnfin, hnval, hnne⟩ := ofInt_exact n hn (by omega)
      rw [hnfin, div_fin_pos mn mm en em hmne]
      have hquot := div_fin_pos_quotient mn mm en em hmne
      rw [hnval, hmval] at hquot
      have hqQ : (5 : ℚ) * n + 1 ≤ 3 * m := by
        have : 5 * n + 1 ≤ 3 * m := hq
        exact_mod_cast this
      have hres := round_lt_six_tenths (mn * 2 ^ (en - em).toNat) (mm * 2 ^ (em - en).toNat)
        (Nat.mul_pos (Nat.pos_of_ne_zero hnne) (pow_pos (by decide) _))
        (Nat.mul_pos (Nat.pos_of_ne_zero hmne) (pow_pos (by decide) _))
        (by
          rw [hquot, le_div_iff₀ hmQ]
          have hsmall : (2 : ℚ) ^ (-1022 : Int) ≤ (2 : ℚ) ^ (-50 : Int) :=
            zpow_le_zpow_right₀ (by norm_num) (by norm_num)
          have h50 : (2 : ℚ) ^ (-50 : Int) = 1 / 1125899906842624 := by norm_num
          have hpos : (0 : ℚ) ≤ (2 : ℚ) ^ (-1022 : Int) := le_of_lt (zpow_pos h2 _)
          have h1 : (2 : ℚ) ^ (-1022 : Int) * m ≤ 1 / 1125899906842624 * m := by
            rw [← h50]; exact mul_le_mul_of_nonneg_right hsmall (le_of_lt hmQ)
          have h2' : (1 : ℚ) / 1125899906842624 * m ≤ 1 := by
            rw [div_mul_eq_mul_div, div_le_iff₀ (by norm_num)]; linarith
          have h3 : (1 : ℚ) ≤ n := by exact_mod_cast hn
          exact le_trans h1 (le_trans h2' h3))
        (by
          rw [hquot, div_mul_eq_mul_div, ← lt_sub_iff_add_lt, div_lt_iff₀ hmQ]
          linarith)
      rw [hres]
      simp [hq]
    · -- the quorum is met
      have hqQ : (3 : ℚ) * m ≤ 5 * n := by
        have : 3 * m ≤ 5 * n := by omega
        exact_mod_cast this
      have hfalse : decide (5 * n < 3 * m) = false := by simp [hq]
      rw [hfalse]
      by_cases hsmall : n < 2 ^ 53
      · obtain ⟨mn, en, hnfin, hnval, hnne⟩ := ofInt_exact n hn hsmall
        rw [hnfin, div_fin_pos mn mm en em hmne]
        have hquot := div_fin_pos_quotient mn mm en em hmne
        rw [hnval, hmval] at hquot
        exact round_not_lt_six_tenths _ _
          (Nat.mul_pos (Nat.pos_of_ne_zero hnne) (pow_pos (by decide) _))
          (Nat.mul_pos (Nat.pos_of_ne_zero hmne) (pow_pos (by decide) _))
          (by rw [hquot, le_div_iff₀ hmQ]; linarith)
      · rcases ofInt_large n (by omega) with hinf | ⟨mn, en, hnfin, hnval⟩
        · rw [hinf]; rfl
        · have hnne : mn ≠ 0 := by
            intro h0
            rw [h0] at hnval
            have : (0 : ℚ) < (2 : ℚ) ^ (53 : Int) := zpow_pos h2 _
            simp at hnval
            linarith
          rw [hnfin, div_fin_pos mn mm en em hmne]
          have hquot := div_fin_pos_quotient mn mm en em hmne
          rw [hmval] at hquot
          have h53 : (2 : ℚ) ^ (53 : Int) = 9007199254740992 := by norm_num
          rw [h53] at hnval
          exact round_not_lt_six_tenths _ _
            (Nat.mul_pos (Nat.pos_of_ne_zero hnne) (pow_pos (by decide) _))
            (Nat.mul_pos (Nat.pos_of_ne_zero hmne) (pow_pos (by decide) _))
            (by rw [hquot, le_div_iff₀ hmQ]; linarith)

/-- What `TimeAverage.Value` returns for a positive sampling cycle, with the
`float64` test replaced by the exact integer inequality it decides. -/
theorem TimeAverage_Value_pos {α : Type} [Zero α] [Add α] [Div α] [NatCast α]
    (env : Env α) (r : PrespecifiedRequest) (hpos : 0 < env.TrackerSleepCycle) :
    TimeAverage.Value env r =
      if 0 < 24 * Hour / env.TrackerSleepCycle ∧
          5 * ((env.GetRequestValuesForTime r.RequestID env.now (24 * Hour)).length : Int)
            < 3 * (24 * Hour / env.TrackerSleepCycle)
      then .ok (0, false)
      else .ok (mean ((env.GetRequestValuesForTime r.RequestID env.now (24 * Hour)).map
        fun v => v.Val), true) := by
  have hday : (0 : Int) ≤ 24 * Hour := by decide
  have hdayval : 24 * Hour = 86400000000000 := by decide
  have htdiv : Int.tdiv (24 * Hour) env.TrackerSleepCycle = 24 * Hour / env.TrackerSleepCycle :=
    Int.tdiv_eq_ediv hday (le_of_lt hpos)
  have hE0 : 0 ≤ 24 * Hour / env.TrackerSleepCycle := Int.ediv_nonneg hday (le_of_lt hpos)
  have hEle : 24 * Hour / env.TrackerSleepCycle ≤ 24 * Hour := Int.ediv_le_self _ hday
  unfold TimeAverage.Value
  simp only
  rw [if_neg (ne_of_gt hpos), htdiv]
  generalize env.GetRequestValuesForTime r.RequestID env.now (24 * Hour) = vals
  generalize hE : 24 * Hour / env.TrackerSleepCycle = E at hE0 hEle
  obtain ⟨m, rfl⟩ := Int.eq_ofNat_of_zero_le hE0
  rcases Nat.eq_zero_or_pos m with hm0 | hmpos
  · subst hm0
    have := quorum_test_zero vals.length
    simp only [Nat.cast_zero] at this ⊢
    rw [this]
    simp
  · have hm50 : m < 2 ^ 50 := by
      rw [hdayval] at hEle
      have : (m : Int) ≤ 86400000000000 := hEle
      omega
    rw [quorum_test_pos vals.length m hmpos hm50]
    by_cases hq : 5 * vals.length < 3 * m
    · have hq' : 5 * (vals.length : Int) < 3 * (m : Int) := by exact_mod_cast hq
      have hmpos' : (0 : Int) < (m : Int) := by exact_mod_cast hmpos
      simp [hq, hq', hmpos']
    · have hq' : ¬ 5 * (vals.length : Int) < 3 * (m : Int) := by
        intro h; exact hq (by exact_mod_cast h)
      simp [hq, hq']

theorem floor_day_div (c : Int) (hpos : 0 < c) :
    ⌊((24 * Hour : Int) : ℚ) / (c : ℚ)⌋ = 24 * Hour / c := by
  obtain ⟨k, rfl⟩ := Int.eq_ofNat_of_zero_le (le_of_lt hpos)
  have := Rat.floor_intCast_div_natCast (24 * Hour) k
  simpa using this

/-! ### Sums -/

theorem foldl_add_eq_sum {α : Type} [AddMonoid α] (l : List α) (a : α) :
    l.foldl (fun sum v => sum + v) a = a + l.sum := by
  induction l generalizing a with
  | nil => simp
  | cons x xs ih => rw [List.foldl_cons, ih, List.sum_cons, add_assoc]

/-! ### The tracker factory -/

/-- The three shapes of a result of `createTracker`: what `BuildPSRTrackers`
returned (for "psr" only), one tracker with a nil error, or a nil set with an
error. -/
theorem createTracker_shape (BuildPSRTrackers : Option (List Tracker) × Option GoError)
    (name : String) :
    (name = "psr" ∧ createTracker BuildPSRTrackers name = BuildPSRTrackers) ∨
    (∃ t, createTracker BuildPSRTrackers name = (some [t], none)) ∨
    (∃ e, createTracker BuildPSRTrackers name = (none, some e)) := by
  unfold createTracker
  by_cases h0 : name = "test"
  · rw [if_pos h0]; exact Or.inr (Or.inl ⟨_, rfl⟩)
  rw [if_neg h0]
  by_cases h1 : name = "balance"
  · rw [if_pos h1]; exact Or.inr (Or.inl ⟨_, rfl⟩)
  rw [if_neg h1]
  by_cases h2 : name = "currentVariables"
  · rw [if_pos h2]; exact Or.inr (Or.inl ⟨_, rfl⟩)
  rw [if_neg h2]
  by_cases h3 : name = "disputeStatus"
  · rw [if_pos h3]; exact Or.inr (Or.inl ⟨_, rfl⟩)
  rw [if_neg h3]
  by_cases h4 : name = "gas"
  · rw [if_pos h4]; exact Or.inr (Or.inl ⟨_, rfl⟩)
  rw [if_neg h4]
  by_cases h5 : name = "top50"
  · rw [if_pos h5]; exact Or.inr (Or.inl ⟨_, rfl⟩)
  rw [if_neg h5]
  by_cases h6 : name = "tributeBalance"
  · rw [if_pos h6]; exact Or.inr (Or.inl ⟨_, rfl⟩)
  rw [if_neg h6]
  by_cases h7 : name = "fetchData"
  · rw [if_pos h7]; exact Or.inr (Or.inl ⟨_, rfl⟩)
  rw [if_neg h7]
  by_cases h8 : name = "psr"
  · rw [if_pos h8]; exact Or.inl ⟨h8, rfl⟩
  rw [if_neg h8]
  by_cases h9 : name = "disputeChecker"
  · rw [if_pos h9]; exact Or.inr (Or.inl ⟨_, rfl⟩)
  rw [if_neg h9]
  exact Or.inr (Or.inr ⟨_, rfl⟩)

/-! ### Position of the median -/

/-- The value of `median` on a non-empty slice, as an element of the sorted slice. -/
theorem median_eq_getElem {α : Type} [LinearOrder α] [Zero α] (vals : List α)
    (hne : vals ≠ []) :
    ∃ h : vals.length / 2 < (sortSlice (fun a b => decide (a < b)) vals).length,
      median vals = (sortSlice (fun a b => decide (a < b)) vals)[vals.length / 2] := by
  have hlt : vals.length / 2 < (sortSlice (fun a b => decide (a < b)) vals).length := by
    rw [sortSlice_length]; exact median_index_lt vals hne
  refine ⟨hlt, ?_⟩
  have h := median_of_sorted vals _ hne (sortSlice_perm _ vals) (sortSlice_sorted vals)
  rw [List.getElem?_eq_getElem hlt] at h
  exact (Option.some.inj h).symm

theorem median_mem {α : Type} [LinearOrder α] [Zero α] (vals : List α) (hne : vals ≠ []) :
    median vals ∈ vals := by
  obtain ⟨hlt, hm⟩ := median_eq_getElem vals hne
  rw [hm]
  exact (sortSlice_perm _ vals).subset (List.getElem_mem _)

/-- In an ascending list `A ++ m :: B`, at most `|A|` elements are strictly
below `m` and at most `|B|` are strictly above it. -/
theorem sorted_countP_split {α : Type} [LinearOrder α] (A B : List α) (m : α)
    (hs : (A ++ m :: B).Sorted (· ≤ ·)) :
    (A ++ m :: B).countP (fun x => decide (x < m)) ≤ A.length ∧
    (A ++ m :: B).countP (fun x => decide (m < x)) ≤ B.length := by
  obtain ⟨_, hB, hAB⟩ := List.pairwise_append.1 hs
  have hA : ∀ a ∈ A, a ≤ m := fun a ha => hAB a ha m (List.mem_cons_self _ _)
  have hB' : ∀ b ∈ B, m ≤ b := fun b hb => List.rel_of_sorted_cons hB b hb
  constructor
  · have h0 : B.countP (fun x => decide (x < m)) = 0 := by
      rw [List.countP_eq_zero]
      intro b hb
      simpa using hB' b hb
    have hle := List.countP_le_length (fun x => decide (x < m)) (l := A)
    rw [List.countP_append, List.countP_cons, h0]
    simp only [lt_self_iff_false, decide_False, Bool.false_eq_true, if_false]
    omega
  · have h0 : A.countP (fun x => decide (m < x)) = 0 := by
      rw [List.countP_eq_zero]
      intro a ha
      simpa using hA a ha
    have hle := List.countP_le_length (fun x => decide (m < x)) (l := B)
    rw [List.countP_append, List.countP_cons, h0]
    simp only [lt_self_iff_false, decide_False, Bool.false_eq_true, if_false]
    omega

/-- In an ascending list, at most `k` elements are strictly below the element at
index `k`, and at most `length - 1 - k` are strictly above it. -/
theorem sorted_countP_getElem {α : Type} [LinearOrder α] (s : List α)
    (hs : s.Sorted (· ≤ ·)) (k : Nat) (hk : k < s.length) :
    s.countP (fun x => decide (x < s[k])) ≤ k ∧
    s.countP (fun x => decide (s[k] < x)) ≤ s.length - 1 - k := by
  have hsplit : s.take k ++ s[k] :: s.drop (k + 1) = s := by
    rw [← List.drop_eq_getElem_cons hk, List.take_append_drop]
  have hs' : (s.take k ++ s[k] :: s.drop (k + 1)).Sorted (· ≤ ·) := by
    rw [hsplit]; exact hs
  have h := sorted_countP_split (s.take k) (s.drop (k + 1)) s[k] hs'
  rw [hsplit, List.length_take, List.length_drop] at h
  constructor
  · have := h.1; omega
  · have := h.2; omega

/-! ### Bounds of the aggregates -/

theorem length_mul_le_sum {α : Type} [LinearOrderedField α] (l : List α) (lo : α)
    (h : ∀ x ∈ l, lo ≤ x) : (l.length : α) * lo ≤ l.sum := by
  induction l with
  | nil => simp
  | cons x xs ih =>
    have hx := h x (List.mem_cons_self _ _)
    have hxs := ih (fun y hy => h y (List.mem_cons_of_mem _ hy))
    rw [List.length_cons, List.sum_cons]
    push_cast
    linarith

theorem sum_le_length_mul {α : Type} [LinearOrderedField α] (l : List α) (hi : α)
    (h : ∀ x ∈ l, x ≤ hi) : l.sum ≤ (l.length : α) * hi := by
  induction l with
  | nil => simp
  | cons x xs ih =>
    have hx := h x (List.mem_cons_self _ _)
    have hxs := ih (fun y hy => h y (List.mem_cons_of_mem _ hy))
    rw [List.length_cons, List.sum_cons]
    push_cast
    linarith

/-- In exact arithmetic the mean of a non-empty list lies between any lower and
any upper bound of its elements. -/
theorem mean_bounds {α : Type} [LinearOrderedField α] (l : List α) (lo hi : α)
    (hne : l ≠ []) (hlo : ∀ x ∈ l, lo ≤ x) (hhi : ∀ x ∈ l, x ≤ hi) :
    lo ≤ mean l ∧ mean l ≤ hi := by
  have hlen : l.length ≠ 0 := fun h => hne (List.length_eq_zero.1 h)
  have hpos : (0 : α) < (l.length : α) := by
    exact_mod_cast Nat.pos_of_ne_zero hlen
  unfold mean
  rw [if_neg hlen, foldl_add_eq_sum, zero_add]
  constructor
  · rw [le_div_iff₀ hpos]
    have := length_mul_le_sum l lo hlo
    linarith
  · rw [div_le_iff₀ hpos]
    have := sum_le_length_mul l hi hhi
    linarith

/-! ### The exponential time-weighted mean in real arithmetic -/

theorem foldl_add_map_sum {α β : Type} [AddMonoid α] (f : β → α) (l : List β) (a : α) :
    l.foldl (fun sum v => sum + f v) a = a + (l.map f).sum := by
  induction l generalizing a with
  | nil => simp
  | cons x xs ih => rw [List.foldl_cons, ih, List.map_cons, List.sum_cons, add_assoc]

/-- In real arithmetic `Duration.Seconds` is the duration divided by `10^9`. -/
theorem Seconds_real (d : Int) : (Seconds d : ℝ) = (d : ℝ) / 1000000000 := by
  unfold Seconds
  have h := Int.tdiv_add_tmod d 1000000000
  have hR : (1000000000 : ℝ) * ((Int.tdiv d 1000000000 : Int) : ℝ) +
      ((Int.tmod d 1000000000 : Int) : ℝ) = (d : ℝ) := by exact_mod_cast h
  push_cast
  field_simp
  linarith

/-- The weight of one sample as the code computes it, in real arithmetic. -/
theorem weight_real (v : ℝ) (d : Int) :
    v * ((1 : Nat) : ℝ) / Real.exp ((Seconds d : ℝ) / ((86400 / 3 : Nat) : ℝ)) =
      v * Real.exp (-((d : ℝ) / 1000000000) / 28800) := by
  have h28800 : ((86400 / 3 : Nat) : ℝ) = 28800 := by norm_num
  rw [Seconds_real, h28800, Nat.cast_one, mul_one, neg_div, Real.exp_neg, div_eq_mul_inv]

theorem Sub_pos (t u : Int) (h : u < t) : 0 < Sub t u := by
  unfold Sub
  omega

/-- The value of `expTimeWeightedMean` on a non-empty slice, in real arithmetic. -/
theorem expTimeWeightedMean_real (now : Int) (vals : List (TimedFloat ℝ)) (hne : vals ≠ []) :
    expTimeWeightedMean Real.exp now vals =
      (vals.map fun v =>
        v.Val * Real.exp (-(((Sub now v.Created : Int) : ℝ) / 1000000000) / 28800)).sum /
        (vals.length : ℝ) := by
  have hlen : vals.length ≠ 0 := fun h => hne (List.length_eq_zero.1 h)
  unfold expTimeWeightedMean
  rw [if_neg hlen, foldl_add_map_sum, zero_add]
  congr 2
  apply List.map_congr_left
  intro v _
  exact weight_real v.Val (Sub now v.Created)

/-- Bounds of `exp (3/4)` from five terms of the exponential series. -/
theorem exp_three_quarters_bounds :
    (2.1123 : ℝ) < Real.exp (3 / 4) ∧ Real.exp (3 / 4) < (2.1172 : ℝ) := by
  have hx : |(3 / 4 : ℝ)| ≤ 1 := by
    rw [abs_of_nonneg (by norm_num : (0 : ℝ) ≤ 3 / 4)]; norm_num
  have h := Real.exp_bound hx (n := 5) (by norm_num)
  have hsum : (∑ m ∈ Finset.range 5, (3 / 4 : ℝ) ^ m / (m.factorial : ℝ)) = 12993 / 6144 := by
    simp [Finset.sum_range_succ, Nat.factorial]
    norm_num
  have herr : |(3 / 4 : ℝ)| ^ 5 * (((5 : ℕ).succ : ℝ) / (((5 : ℕ).factorial : ℝ) * ((5 : ℕ) : ℝ)))
      = 243 / 102400 := by
    rw [abs_of_nonneg (by norm_num : (0 : ℝ) ≤ 3 / 4)]
    simp [Nat.factorial]
    norm_num
  rw [herr, hsum] at h
  have h' := abs_le.1 h
  constructor
  · have := h'.1
    norm_num at this ⊢
    linarith
  · have := h'.2
    norm_num at this ⊢
    linarith

/-- Bounds of `exp 3` from the decimal expansion of `e`. -/
theorem exp_three_bounds : (20.08 : ℝ) < Real.exp 3 ∧ Real.exp 3 < (20.09 : ℝ) := by
  have h3 : Real.exp 3 = Real.exp 1 ^ 3 := by
    rw [← Real.exp_nat_mul]
    norm_num
  have hlo := Real.exp_one_gt_d9
  have hhi := Real.exp_one_lt_d9
  have hpos : (0 : ℝ) < Real.exp 1 := Real.exp_pos 1
  rw [h3]
  constructor
  · have : (2.7182818283 : ℝ) ^ 3 < Real.exp 1 ^ 3 :=
      pow_lt_pow_left₀ hlo (by norm_num) (by norm_num)
    have h0 : (20.08 : ℝ) < (2.7182818283 : ℝ) ^ 3 := by norm_num
    linarith
  · have : Real.exp 1 ^ 3 < (2.7182818286 : ℝ) ^ 3 :=
      pow_lt_pow_left₀ hhi (le_of_lt hpos) (by norm_num)
    have h0 : (2.7182818286 : ℝ) ^ 3 < (20.09 : ℝ) := by norm_num
    linarith

/-- The value of `expTimeWeightedMean` on one sample of value 1 created at time 0. -/
theorem unit_sample_weight (now : Int) (hlo : 0 ≤ now) (hhi : now ≤ 9223372036854775807) :
    expTimeWeightedMean Real.exp now [⟨1, 0⟩] = Real.exp (-((now : ℝ) / 1000000000) / 28800) := by
  have hsub : Sub now 0 = now := by unfold Sub; omega
  rw [expTimeWeightedMean_real now _ (by simp)]
  simp [hsub]

/-! ### Sampling cycles above 24 hours -/

/-- With a sampling cycle above 24 hours the expected count is 0 and
`TimeAverage.Value` is ready whatever the window holds. -/
theorem TimeAverage_Value_long_cycle {α : Type} [Zero α] [Add α] [Div α] [NatCast α]
    (env : Env α) (r : PrespecifiedRequest) (h : 24 * Hour < env.TrackerSleepCycle) :
    TimeAverage.Value env r =
      .ok (mean ((env.GetRequestValuesForTime r.RequestID env.now (24 * Hour)).map
        fun v => v.Val), true) := by
  have hpos : 0 < env.TrackerSleepCycle := lt_trans (by decide) h
  have hE : 24 * Hour / env.TrackerSleepCycle = 0 :=
    Int.ediv_eq_zero_of_lt (by decide) h
  rw [TimeAverage_Value_pos env r hpos, hE, if_neg (fun hc => absurd hc.1 (by decide))]

/-! ## Theorems -/

/-- C1: the strategy selector succeeds on the four recognised tags and installs
Median for "median", Default for "value", Time-Average for "dayAvg" and Default
for the empty tag, whatever strategy the receiver held before. -/
theorem UnmarshalJSON_recognized (f : ValueP) :
    f.UnmarshalJSON (.ok "median") = (⟨some .MedianProc⟩, none) ∧
    f.UnmarshalJSON (.ok "value") = (⟨some .DefaultProcessor⟩, none) ∧
    f.UnmarshalJSON (.ok "dayAvg") = (⟨some .TimeAverage⟩, none) ∧
    f.UnmarshalJSON (.ok "") = (⟨some .DefaultProcessor⟩, none) := by
  refine ⟨?_, ?_, ?_, ?_⟩ <;> simp [ValueP.UnmarshalJSON]

/-- C2: on a decoded string tag the selector returns an error if and only if
the tag is none of "median", "value", "dayAvg" and ""; when it does, the error
names the tag and the receiver keeps the strategy it had (no default is
substituted); "bogus" and the case variant "Median" are such tags. -/
theorem UnmarshalJSON_error_iff (f : ValueP) (tag : String) :
    ((f.UnmarshalJSON (.ok tag)).2 ≠ none ↔
        tag ∉ ["median", "value", "dayAvg", ""]) ∧
    (tag ∉ ["median", "value", "dayAvg", ""] →
        f.UnmarshalJSON (.ok tag) =
          (f, some ("unrecognized transformation in PSR: " ++ tag))) ∧
    "bogus" ∉ ["median", "value", "dayAvg", ""] ∧
    "Median" ∉ ["median", "value", "dayAvg", ""] := by
  refine ⟨?_, ?_, by decide, by decide⟩
  · unfold ValueP.UnmarshalJSON
    by_cases h1 : tag = "median"
    · simp [h1]
    by_cases h2 : tag = "value"
    · simp [h2]
    by_cases h3 : tag = "dayAvg"
    · simp [h3]
    by_cases h4 : tag = ""
    · simp [h4]
    simp [h1, h2, h3, h4]
  · intro h
    simp only [List.mem_cons, List.mem_singleton, List.mem_nil_iff, not_or, or_false] at h
    obtain ⟨h1, h2, h3, h4⟩ := h
    simp [ValueP.UnmarshalJSON, h1, h2, h3, h4]

/-- Witness for C2 at the tag "bogus" on a selector holding the Median strategy. -/
theorem UnmarshalJSON_error_iff_witness :
    "bogus" ∉ ["median", "value", "dayAvg", ""] ∧
    ValueP.UnmarshalJSON ⟨some .MedianProc⟩ (.ok "bogus") =
      (⟨some .MedianProc⟩, some ("unrecognized transformation in PSR: " ++ "bogus")) :=
  ⟨by decide,
   (UnmarshalJSON_error_iff ⟨some .MedianProc⟩ "bogus").2.1 (by decide)⟩

/-- C3: for a non-empty list `vals` of sample values and any ascending arrangement
`s` of it, `median vals` is the element of `s` at index `floor(n/2)`; for an even
length `n = 2k` that is the upper-middle element at index `k`, and when the two
middle elements differ it is not their average. -/
theorem median_sorted_index {α : Type} [LinearOrderedField α] (vals s : List α)
    (hne : vals ≠ []) (hp : s.Perm vals) (hs : s.Sorted (· ≤ ·)) :
    s[vals.length / 2]? = some (median vals) ∧
    (∀ k, vals.length = 2 * k → s[k]? = some (median vals)) ∧
    (∀ k a b, vals.length = 2 * k → s[k - 1]? = some a → s[k]? = some b → a < b →
      median vals = b ∧ median vals ≠ (a + b) / 2) := by
  have h1 := median_of_sorted vals s hne hp hs
  have h2 : ∀ k, vals.length = 2 * k → s[k]? = some (median vals) := by
    intro k hk
    have : vals.length / 2 = k := by omega
    rw [← this]; exact h1
  refine ⟨h1, h2, ?_⟩
  intro k a b hk _ hb hab
  have hmb : median vals = b := by
    have := h2 k hk
    rw [hb] at this
    exact (Option.some.inj this).symm
  refine ⟨hmb, ?_⟩
  have h3 : (a + b) / 2 < b := by linarith
  rw [hmb]
  exact ne_of_gt h3

/-- Witness for C3: the list [1, 2, 3, 4] has median 3, not 2.5. -/
theorem median_sorted_index_witness :
    ([1, 2, 3, 4] : List ℚ) ≠ [] ∧
    ([1, 2, 3, 4] : List ℚ).Perm [1, 2, 3, 4] ∧
    ([1, 2, 3, 4] : List ℚ).Sorted (· ≤ ·) ∧
    median ([1, 2, 3, 4] : List ℚ) = 3 ∧
    median ([1, 2, 3, 4] : List ℚ) ≠ (2 + 3) / 2 :=
  have hs : ([1, 2, 3, 4] : List ℚ).Sorted (· ≤ ·) := by
    norm_num [List.Sorted]
  ⟨by simp, List.Perm.refl _, hs,
    (median_sorted_index [1, 2, 3, 4] [1, 2, 3, 4] (by simp) (List.Perm.refl _) hs).2.2
      2 2 3 rfl rfl rfl (by norm_num)⟩

/-- C4: when the payload list is positionally aligned with the argument groups of
the request, the Default strategy's Transform returns the mean, and the Median
strategy's Transform the median, of exactly the values
`parse(payload_i, granularity, argGroup_i)` of the positions whose payload is
non-nil and whose parse succeeds, in their original order, both with a nil
error; nil and unparseable payloads contribute nothing and raise no error. -/
theorem Transform_parsedSamples {α : Type} [Zero α] [Add α] [Div α] [NatCast α] [LT α]
    [DecidableRel (fun a b : α => a < b)] (parse : PayloadParser α)
    (r : PrespecifiedRequest) (payloads : List (Option (List Nat)))
    (h : payloads.length = r.argGroups.length) :
    DefaultProcessor.Transform parse r payloads =
      .ok (mean (parsedSamples parse r payloads), none) ∧
    MedianProc.Transform parse r payloads =
      .ok (median (parsedSamples parse r payloads), none) := by
  have hok := parsePayloads_ok parse r payloads (by
    intro j b hj
    have : j < payloads.length := by
      by_contra hlt
      rw [List.getElem?_eq_none (by omega)] at hj
      exact absurd hj (by simp)
    omega)
  simp [DefaultProcessor.Transform, MedianProc.Transform, hok]

/-- Witness for C4: the payloads ["42", nil, "10"] aligned with three argument
groups give the aggregate of the two values 42 and 10 only. -/
theorem Transform_parsedSamples_witness :
    [some [52, 50], none, some [49, 48]].length =
      (PrespecifiedRequest.mk 7 1 [["a"], ["b"], ["c"]]).argGroups.length ∧
    DefaultProcessor.Transform decimalParser ⟨7, 1, [["a"], ["b"], ["c"]]⟩
      [some [52, 50], none, some [49, 48]] = .ok (mean [42, 10], none) ∧
    MedianProc.Transform decimalParser ⟨7, 1, [["a"], ["b"], ["c"]]⟩
      [some [52, 50], none, some [49, 48]] = .ok (median [42, 10], none) := by
  have hs : parsedSamples decimalParser ⟨7, 1, [["a"], ["b"], ["c"]]⟩
      [some [52, 50], none, some [49, 48]] = [42, 10] := by
    simp [parsedSamples, decimalParser, List.filterMap_cons]
  have h := Transform_parsedSamples decimalParser ⟨7, 1, [["a"], ["b"], ["c"]]⟩
    [some [52, 50], none, some [49, 48]] (by decide)
  rw [hs] at h
  exact ⟨by decide, h⟩

/-- C5: when every payload is nil or fails to parse against the argument group of
its position (the empty payload list included), Transform of the Default and of
the Median strategy returns the value 0 with a nil error. -/
theorem Transform_no_samples {α : Type} [Zero α] [Add α] [Div α] [NatCast α] [LT α]
    [DecidableRel (fun a b : α => a < b)] (parse : PayloadParser α)
    (r : PrespecifiedRequest) (payloads : List (Option (List Nat)))
    (h : ∀ (j : Nat) (b : List Nat), payloads[j]? = some (some b) →
      ∃ (args : List String) (e : GoError), r.argGroups[j]? = some args ∧ parse b r.Granularity args = .error e) :
    DefaultProcessor.Transform parse r payloads = .ok (0, none) ∧
    MedianProc.Transform parse r payloads = .ok (0, none) := by
  have hok := parsePayloads_ok parse r payloads (by
    intro j b hj
    obtain ⟨args, e, hargs, _⟩ := h j b hj
    by_contra hlt
    rw [List.getElem?_eq_none (by omega)] at hargs
    exact absurd hargs (by simp))
  rw [parsedSamples_eq_nil parse r payloads h] at hok
  simp [DefaultProcessor.Transform, MedianProc.Transform, hok, mean, median]

/-- Witness for C5: the payloads [nil, "x", nil], whose only non-nil entry does not
parse, give 0 with a nil error. -/
theorem Transform_no_samples_witness :
    (∀ (j : Nat) (b : List Nat), [none, some [120], none][j]? = some (some b) →
      ∃ (args : List String) (e : GoError), (PrespecifiedRequest.mk 7 1 [["a"], ["b"]]).argGroups[j]? = some args ∧
        decimalParser b (PrespecifiedRequest.mk 7 1 [["a"], ["b"]]).Granularity args
          = .error e) ∧
    DefaultProcessor.Transform decimalParser ⟨7, 1, [["a"], ["b"]]⟩
      [none, some [120], none] = .ok (0, none) ∧
    MedianProc.Transform decimalParser ⟨7, 1, [["a"], ["b"]]⟩
      [none, some [120], none] = .ok (0, none) := by
  have hh : ∀ (j : Nat) (b : List Nat), [none, some [120], none][j]? = some (some b) →
      ∃ (args : List String) (e : GoError), (PrespecifiedRequest.mk 7 1 [["a"], ["b"]]).argGroups[j]? = some args ∧
        decimalParser b (PrespecifiedRequest.mk 7 1 [["a"], ["b"]]).Granularity args
          = .error e := by
    intro j b hj
    match j, hj with
    | 0, hj => simp at hj
    | 1, hj =>
      have hb : b = [120] := by simpa using hj.symm
      subst hb
      exact ⟨["b"], "not a number", by simp, by simp [decimalParser]⟩
    | 2, hj => simp at hj
    | j + 3, hj => simp at hj
  exact ⟨hh, Transform_no_samples decimalParser ⟨7, 1, [["a"], ["b"]]⟩
    [none, some [120], none] hh⟩

/-- Counterexample to C6: with one argument group and the two non-nil payloads
["4", "2"], the second payload has no matching argument group and Transform
panics with an index out of range instead of skipping it. -/
theorem Transform_unmatched_payload_panics :
    DefaultProcessor.Transform decimalParser ⟨7, 1, [["a"]]⟩ [some [52], some [50]]
      = .error .indexOutOfRange ∧
    MedianProc.Transform decimalParser ⟨7, 1, [["a"]]⟩ [some [52], some [50]]
      = .error .indexOutOfRange := by
  have h := parsePayloads_panic decimalParser ⟨7, 1, [["a"]]⟩ [some [52], some [50]]
    ⟨1, [50], by simp, by simp⟩
  simp [DefaultProcessor.Transform, MedianProc.Transform, h]

/-- C6, amended: Transform completes without failing exactly when every non-nil
payload sits at a position that has an argument group; it then aggregates the
successfully parsed payloads, nil payloads being skipped at every position,
also beyond the argument groups. -/
theorem Transform_completes_iff {α : Type} [Zero α] [Add α] [Div α] [NatCast α] [LT α]
    [DecidableRel (fun a b : α => a < b)] (parse : PayloadParser α)
    (r : PrespecifiedRequest) (payloads : List (Option (List Nat))) :
    ((∃ v, DefaultProcessor.Transform parse r payloads = .ok v) ↔
      ∀ (j : Nat) (b : List Nat), payloads[j]? = some (some b) → j < r.argGroups.length) ∧
    ((∃ v, MedianProc.Transform parse r payloads = .ok v) ↔
      ∀ (j : Nat) (b : List Nat), payloads[j]? = some (some b) → j < r.argGroups.length) ∧
    ((∀ (j : Nat) (b : List Nat), payloads[j]? = some (some b) → j < r.argGroups.length) →
      DefaultProcessor.Transform parse r payloads =
        .ok (mean (parsedSamples parse r payloads), none) ∧
      MedianProc.Transform parse r payloads =
        .ok (median (parsedSamples parse r payloads), none)) := by
  by_cases h : ∀ (j : Nat) (b : List Nat), payloads[j]? = some (some b) →
      j < r.argGroups.length
  · have hok := parsePayloads_ok parse r payloads h
    simpa [DefaultProcessor.Transform, MedianProc.Transform, hok] using h
  · have hex : ∃ j b, payloads[j]? = some (some b) ∧ r.argGroups.length ≤ j := by
      by_contra hno
      apply h
      intro j b hj
      by_contra hlt
      exact hno ⟨j, b, hj, by omega⟩
    have hpanic := parsePayloads_panic parse r payloads hex
    simp [DefaultProcessor.Transform, MedianProc.Transform, hpanic, h]

/-- Witness for C6, amended: with one argument group, the payloads ["4", nil, nil]
are longer than the argument groups, and Transform completes with the aggregate
of the single value 4. -/
theorem Transform_completes_iff_witness :
    (∀ (j : Nat) (b : List Nat), [some [52], none, none][j]? = some (some b) →
      j < (PrespecifiedRequest.mk 7 1 [["a"]]).argGroups.length) ∧
    DefaultProcessor.Transform decimalParser ⟨7, 1, [["a"]]⟩ [some [52], none, none]
      = .ok (mean [4], none) ∧
    MedianProc.Transform decimalParser ⟨7, 1, [["a"]]⟩ [some [52], none, none]
      = .ok (median [4], none) := by
  have hh : ∀ (j : Nat) (b : List Nat), [some [52], none, none][j]? = some (some b) →
      j < (PrespecifiedRequest.mk 7 1 [["a"]]).argGroups.length := by
    intro j b hj
    match j, hj with
    | 0, _ => decide
    | 1, hj => simp at hj
    | 2, hj => simp at hj
    | j + 3, hj => simp at hj
  have hs : parsedSamples decimalParser ⟨7, 1, [["a"]]⟩ [some [52], none, none] = [4] := by
    simp [parsedSamples, decimalParser, List.filterMap_cons]
  have h := (Transform_completes_iff decimalParser ⟨7, 1, [["a"]]⟩
    [some [52], none, none]).2.2 hh
  rw [hs] at h
  exact ⟨hh, h⟩

/-- Counterexample to C7: with a sampling cycle of 7 hours and 2 samples in the
window, the exact quotient 24h/7h gives the quorum 2/(24/7) = 0.583 < 0.6, yet
the strategy is ready, because the expected count is the integer quotient 3. -/
theorem TimeAverage_exact_quotient_fails :
    0 < (exampleEnv (7 * Hour) (exampleSamples 2 5)).TrackerSleepCycle ∧
    ((exampleEnv (7 * Hour) (exampleSamples 2 5)).GetRequestValuesForTime 1
      (exampleEnv (7 * Hour) (exampleSamples 2 5)).now (24 * Hour)).length = 2 ∧
    TimeAverage.Value (exampleEnv (7 * Hour) (exampleSamples 2 5)) ⟨1, 1, []⟩
      = .ok (5, true) ∧
    ¬ ((6 : ℚ) / 10 ≤ (2 : ℚ) / (((24 * Hour : Int) : ℚ) / ((7 * Hour : Int) : ℚ))) ∧
    ¬ ((∃ v, TimeAverage.Value (exampleEnv (7 * Hour) (exampleSamples 2 5)) ⟨1, 1, []⟩
          = .ok (v, true)) ↔
        (6 : ℚ) / 10 ≤ (2 : ℚ) / (((24 * Hour : Int) : ℚ) / ((7 * Hour : Int) : ℚ))) := by
  have hv : TimeAverage.Value (exampleEnv (7 * Hour) (exampleSamples 2 5)) ⟨1, 1, []⟩
      = .ok (5, true) := by
    rw [TimeAverage_Value_pos _ _ (by decide)]
    have hE : 24 * Hour / (exampleEnv (7 * Hour) (exampleSamples 2 5)).TrackerSleepCycle = 3 := by
      decide
    rw [hE]
    norm_num [exampleEnv, exampleSamples, mean, List.replicate]
  have hq : ¬ ((6 : ℚ) / 10 ≤ (2 : ℚ) / (((24 * Hour : Int) : ℚ) / ((7 * Hour : Int) : ℚ))) := by
    norm_num [Hour]
  exact ⟨by decide, by decide, hv, hq, fun h => hq (h.1 ⟨5, hv⟩)⟩

/-- C7, amended: for a sampling cycle with 0 < cycle ≤ 24h, the Time-Average Value
is ready if and only if actualCount / expectedCount ≥ 0.6, where expectedCount
is the integer quotient floor(24h / cycle); below 0.6 it returns (0, false),
otherwise the mean of the in-window samples with ready = true. -/
theorem TimeAverage_ready_iff {α : Type} [Zero α] [Add α] [Div α] [NatCast α]
    (env : Env α) (r : PrespecifiedRequest)
    (hpos : 0 < env.TrackerSleepCycle) (hle : env.TrackerSleepCycle ≤ 24 * Hour) :
    ((∃ v, TimeAverage.Value env r = .ok (v, true)) ↔
      (6 : ℚ) / 10 ≤
        ((env.GetRequestValuesForTime r.RequestID env.now (24 * Hour)).length : ℚ) /
          (⌊((24 * Hour : Int) : ℚ) / (env.TrackerSleepCycle : ℚ)⌋ : ℚ)) ∧
    (((env.GetRequestValuesForTime r.RequestID env.now (24 * Hour)).length : ℚ) /
        (⌊((24 * Hour : Int) : ℚ) / (env.TrackerSleepCycle : ℚ)⌋ : ℚ) < 6 / 10 →
      TimeAverage.Value env r = .ok (0, false)) ∧
    ((6 : ℚ) / 10 ≤
        ((env.GetRequestValuesForTime r.RequestID env.now (24 * Hour)).length : ℚ) /
          (⌊((24 * Hour : Int) : ℚ) / (env.TrackerSleepCycle : ℚ)⌋ : ℚ) →
      TimeAverage.Value env r =
        .ok (mean ((env.GetRequestValuesForTime r.RequestID env.now (24 * Hour)).map
          fun v => v.Val), true)) := by
  have hval := TimeAverage_Value_pos env r hpos
  rw [floor_day_div _ hpos]
  have hE1 : 1 ≤ 24 * Hour / env.TrackerSleepCycle := by
    have : env.TrackerSleepCycle ≤ 24 * Hour := hle
    exact Int.le_ediv_of_mul_le hpos (by linarith)
  generalize env.GetRequestValuesForTime r.RequestID env.now (24 * Hour) = vals at hval ⊢
  generalize 24 * Hour / env.TrackerSleepCycle = E at hval hE1 ⊢
  have hEQ : (0 : ℚ) < (E : ℚ) := by exact_mod_cast (by omega : (0 : Int) < E)
  have hiff : (vals.length : ℚ) / (E : ℚ) < 6 / 10 ↔ 5 * (vals.length : Int) < 3 * E := by
    rw [div_lt_iff₀ hEQ]
    constructor
    · intro h
      have : (5 : ℚ) * (vals.length : ℚ) < 3 * (E : ℚ) := by linarith
      exact_mod_cast this
    · intro h
      have : (5 : ℚ) * (vals.length : ℚ) < 3 * (E : ℚ) := by exact_mod_cast h
      linarith
  by_cases hq : 5 * (vals.length : Int) < 3 * E
  · have hlt := hiff.2 hq
    have hv : TimeAverage.Value env r = .ok (0, false) := by
      rw [hval, if_pos ⟨by omega, hq⟩]
    refine ⟨?_, fun _ => hv, fun hge => absurd hlt (not_lt.2 hge)⟩
    constructor
    · rintro ⟨v, hv'⟩
      rw [hv] at hv'
      simp at hv'
    · intro hge
      exact absurd hlt (not_lt.2 hge)
  · have hge : (6 : ℚ) / 10 ≤ (vals.length : ℚ) / (E : ℚ) :=
      not_lt.1 (fun h => hq (hiff.1 h))
    have hv : TimeAverage.Value env r = .ok (mean (vals.map fun v => v.Val), true) := by
      rw [hval, if_neg (fun h => hq h.2)]
    exact ⟨⟨fun _ => hge, fun _ => ⟨_, hv⟩⟩, fun hlt => absurd hge (not_le.2 hlt), fun _ => hv⟩

/-- Witness for C7, amended: with a cycle of 2 hours (expected count 12) and 8 samples
in the window, the strategy is ready and returns their mean. -/
theorem TimeAverage_ready_iff_witness :
    0 < (exampleEnv (2 * Hour) (exampleSamples 8 3)).TrackerSleepCycle ∧
    (exampleEnv (2 * Hour) (exampleSamples 8 3)).TrackerSleepCycle ≤ 24 * Hour ∧
    TimeAverage.Value (exampleEnv (2 * Hour) (exampleSamples 8 3)) ⟨1, 1, []⟩ =
      .ok (mean (List.replicate 8 3), true) := by
  have h := (TimeAverage_ready_iff (exampleEnv (2 * Hour) (exampleSamples 8 3)) ⟨1, 1, []⟩
    (by decide) (by decide)).2.2 (by
      norm_num [exampleEnv, exampleSamples, Hour, Int.floor_eq_iff])
  refine ⟨by decide, by decide, ?_⟩
  rw [h]
  simp [exampleEnv, exampleSamples]

/-- C8: with a sampling cycle of 1 hour, the Time-Average Value returns (0, false)
when the window holds fewer than 15 samples, and (m, true) when it holds 15 or
more, where m is the mean of all in-window sample values: their left-to-right
sum divided by their number. -/
theorem TimeAverage_hourly {α : Type} [Zero α] [Add α] [Div α] [NatCast α]
    (env : Env α) (r : PrespecifiedRequest) (hcycle : env.TrackerSleepCycle = Hour) :
    ((env.GetRequestValuesForTime r.RequestID env.now (24 * Hour)).length < 15 →
      TimeAverage.Value env r = .ok (0, false)) ∧
    (15 ≤ (env.GetRequestValuesForTime r.RequestID env.now (24 * Hour)).length →
      TimeAverage.Value env r =
        .ok (mean ((env.GetRequestValuesForTime r.RequestID env.now (24 * Hour)).map
          fun v => v.Val), true) ∧
      mean ((env.GetRequestValuesForTime r.RequestID env.now (24 * Hour)).map
          fun v => v.Val) =
        ((env.GetRequestValuesForTime r.RequestID env.now (24 * Hour)).map
          fun v => v.Val).foldl (fun sum v => sum + v) 0 /
          (((env.GetRequestValuesForTime r.RequestID env.now (24 * Hour)).length : Nat) : α)) := by
  have hval := TimeAverage_Value_pos env r (by rw [hcycle]; decide)
  have hE : 24 * Hour / env.TrackerSleepCycle = 24 := by rw [hcycle]; decide
  rw [hE] at hval
  generalize env.GetRequestValuesForTime r.RequestID env.now (24 * Hour) = vals at hval ⊢
  constructor
  · intro hlt
    rw [hval, if_pos ⟨by decide, by omega⟩]
  · intro hge
    constructor
    · rw [hval, if_neg (fun h => by omega)]
    · have hlen : (vals.map fun v => v.Val).length ≠ 0 := by
        rw [List.length_map]; omega
      unfold mean
      rw [if_neg hlen, List.length_map]

/-- Witness for C8: at a cycle of 1 hour, 15 in-window samples give the mean of
the 15 samples with ready = true, and 14 in-window samples give (0, false). -/
theorem TimeAverage_hourly_witness :
    (exampleEnv Hour (exampleSamples 15 2)).TrackerSleepCycle = Hour ∧
    15 ≤ ((exampleEnv Hour (exampleSamples 15 2)).GetRequestValuesForTime 1
      (exampleEnv Hour (exampleSamples 15 2)).now (24 * Hour)).length ∧
    TimeAverage.Value (exampleEnv Hour (exampleSamples 15 2)) ⟨1, 1, []⟩ =
      .ok (mean (List.replicate 15 2), true) ∧
    ((exampleEnv Hour (exampleSamples 14 2)).GetRequestValuesForTime 1
      (exampleEnv Hour (exampleSamples 14 2)).now (24 * Hour)).length < 15 ∧
    TimeAverage.Value (exampleEnv Hour (exampleSamples 14 2)) ⟨1, 1, []⟩ = .ok (0, false) := by
  have h := ((TimeAverage_hourly (exampleEnv Hour (exampleSamples 15 2)) ⟨1, 1, []⟩ rfl).2
    (by decide)).1
  have h14 := (TimeAverage_hourly (exampleEnv Hour (exampleSamples 14 2)) ⟨1, 1, []⟩ rfl).1
    (by decide)
  refine ⟨rfl, by decide, ?_, by decide, h14⟩
  rw [h]
  simp [exampleEnv, exampleSamples]

/-- C9: `mean` of the empty list is 0 and `mean` of a non-empty list is the
left-to-right sum of its elements divided by their number, for every carrier
(the `float64` carrier included); in exact arithmetic `mean [x] = x` and the
mean of a non-empty list is the sum of the list divided by its length; on
`float64`, `mean [x] = x` for every canonical `x` other than negative zero
(whose mean is positive zero, equal to it under `==`). -/
theorem mean_spec {α : Type} [Zero α] [Add α] [Div α] [NatCast α] {β : Type}
    [DivisionRing β] :
    mean ([] : List α) = 0 ∧
    (∀ l : List α, l ≠ [] →
      mean l = l.foldl (fun sum v => sum + v) 0 / ((l.length : Nat) : α)) ∧
    (∀ x : β, mean [x] = x) ∧
    (∀ l : List β, l ≠ [] → mean l = l.sum / ((l.length : Nat) : β)) ∧
    (∀ x : F64, x.canonical = true → x ≠ .fin true 0 0 → mean [x] = x) := by
  refine ⟨by simp [mean], ?_, ?_, ?_, ?_⟩
  · intro l hl
    have : l.length ≠ 0 := fun h => hl (List.length_eq_zero.1 h)
    simp [mean, this]
  · intro x
    simp [mean]
  · intro l hl
    have : l.length ≠ 0 := fun h => hl (List.length_eq_zero.1 h)
    unfold mean
    rw [if_neg this, foldl_add_eq_sum, zero_add]
  · intro x hc hne
    rw [mean_singleton_unfold, mean_singleton_float64 x hc, if_neg hne]

/-- Witness for C9: the mean of [2, 4, 9] is (2 + 4 + 9) / 3. -/
theorem mean_spec_witness :
    ([2, 4, 9] : List ℚ) ≠ [] ∧ mean ([2, 4, 9] : List ℚ) = (2 + 4 + 9) / 3 := by
  have h := (mean_spec (α := ℚ) (β := ℚ)).2.2.2.1 [2, 4, 9] (by simp)
  refine ⟨by simp, ?_⟩
  rw [h]
  norm_num

set_option maxRecDepth 100000 in
/-- Counterexample to C10: in `float64` arithmetic the lists [2^54, 1, -2^54] and
[2^54, -2^54, 1] are permutations of each other, yet `mean` returns 0 on the
first (2^54 + 1 rounds to 2^54) and the `float64` nearest to 1/3 on the second. -/
theorem mean_float64_order_dependent :
    List.Perm [F64.ofInt 18014398509481984, F64.ofInt 1, F64.ofInt (-18014398509481984)]
      [F64.ofInt 18014398509481984, F64.ofInt (-18014398509481984), F64.ofInt 1] ∧
    mean [F64.ofInt 18014398509481984, F64.ofInt 1, F64.ofInt (-18014398509481984)]
      = .fin false 0 0 ∧
    mean [F64.ofInt 18014398509481984, F64.ofInt (-18014398509481984), F64.ofInt 1]
      = .fin false 6004799503160661 (-54) ∧
    mean [F64.ofInt 18014398509481984, F64.ofInt 1, F64.ofInt (-18014398509481984)] ≠
      mean [F64.ofInt 18014398509481984, F64.ofInt (-18014398509481984), F64.ofInt 1] := by
  refine ⟨List.Perm.cons _ (List.Perm.swap _ _ _), ?_, ?_, ?_⟩ <;> decide

/-- C10, amended: in exact arithmetic, that is for every carrier whose addition is
associative and commutative, `mean` returns the same result on a list and on
every permutation of it. -/
theorem mean_perm_exact {α : Type} [AddCommMonoid α] [Div α] [NatCast α]
    (l₁ l₂ : List α) (h : l₁.Perm l₂) : mean l₁ = mean l₂ := by
  unfold mean
  rw [foldl_add_eq_sum, foldl_add_eq_sum, h.sum_eq, h.length_eq]

/-- Witness for C10, amended: over the rationals, [1, 2, 6] and [6, 1, 2] have the
same mean. -/
theorem mean_perm_exact_witness :
    List.Perm ([1, 2, 6] : List ℚ) [6, 1, 2] ∧
    mean ([1, 2, 6] : List ℚ) = mean ([6, 1, 2] : List ℚ) :=
  have hp : List.Perm ([1, 2, 6] : List ℚ) [6, 1, 2] := by decide
  ⟨hp, mean_perm_exact [1, 2, 6] [6, 1, 2] hp⟩

/-- C11: for every name outside the ten well-known tracker names, `createTracker`
returns a nil tracker set together with the error "no tracker with the name
<name>", whose message contains the requested name; matching is
case-sensitive, so "Balance" and "PSR" are unknown names. -/
theorem createTracker_unknown (BuildPSRTrackers : Option (List Tracker) × Option GoError)
    (name : String)
    (h : name ∉ ["test", "balance", "currentVariables", "disputeStatus", "gas", "top50",
      "tributeBalance", "fetchData", "psr", "disputeChecker"]) :
    createTracker BuildPSRTrackers name =
      (none, some ("no tracker with the name " ++ name)) ∧
    (∃ msg, (createTracker BuildPSRTrackers name).2 = some msg ∧
      name.data <:+: msg.data) ∧
    "Balance" ∉ ["test", "balance", "currentVariables", "disputeStatus", "gas", "top50",
      "tributeBalance", "fetchData", "psr", "disputeChecker"] ∧
    "PSR" ∉ ["test", "balance", "currentVariables", "disputeStatus", "gas", "top50",
      "tributeBalance", "fetchData", "psr", "disputeChecker"] := by
  simp only [List.mem_cons, List.mem_singleton, List.mem_nil_iff, not_or, or_false] at h
  obtain ⟨h1, h2, h3, h4, h5, h6, h7, h8, h9, h10⟩ := h
  have hval : createTracker BuildPSRTrackers name =
      (none, some ("no tracker with the name " ++ name)) := by
    simp [createTracker, h1, h2, h3, h4, h5, h6, h7, h8, h9, h10]
  refine ⟨hval, ⟨_, by rw [hval], ?_⟩, by decide, by decide⟩
  rw [String.data_append]
  exact (List.suffix_append _ _).isInfix

/-- Witness for C11: the unknown names "Balance" and "PSR". -/
theorem createTracker_unknown_witness :
    "Balance" ∉ ["test", "balance", "currentVariables", "disputeStatus", "gas", "top50",
      "tributeBalance", "fetchData", "psr", "disputeChecker"] ∧
    createTracker (some [.PSRTracker 1], none) "Balance" =
      (none, some ("no tracker with the name " ++ "Balance")) ∧
    createTracker (some [.PSRTracker 1], none) "PSR" =
      (none, some ("no tracker with the name " ++ "PSR")) :=
  ⟨by decide,
    (createTracker_unknown (some [.PSRTracker 1], none) "Balance" (by decide)).1,
    (createTracker_unknown (some [.PSRTracker 1], none) "PSR" (by decide)).1⟩

/-- C12: for each of the nine fixed well-known names `createTracker` returns a nil
error and a set of exactly one tracker of the kind the name designates; for
every name other than "psr" a nil error implies a one-element result; and the
pair (nil set, nil error) is returned for no name other than "psr", for which
the result is whatever `BuildPSRTrackers` returns. -/
theorem createTracker_fixed (BuildPSRTrackers : Option (List Tracker) × Option GoError) :
    createTracker BuildPSRTrackers "test" = (some [.TestTracker], none) ∧
    createTracker BuildPSRTrackers "balance" = (some [.BalanceTracker], none) ∧
    createTracker BuildPSRTrackers "currentVariables" =
      (some [.CurrentVariablesTracker], none) ∧
    createTracker BuildPSRTrackers "disputeStatus" = (some [.DisputeTracker], none) ∧
    createTracker BuildPSRTrackers "gas" = (some [.GasTracker], none) ∧
    createTracker BuildPSRTrackers "top50" = (some [.Top50Tracker], none) ∧
    createTracker BuildPSRTrackers "tributeBalance" = (some [.TributeTracker], none) ∧
    createTracker BuildPSRTrackers "fetchData" = (some [.RequestDataTracker], none) ∧
    createTracker BuildPSRTrackers "disputeChecker" = (some [.disputeChecker], none) ∧
    (∀ name : String, name ≠ "psr" → (createTracker BuildPSRTrackers name).2 = none →
      ∃ t, (createTracker BuildPSRTrackers name).1 = some [t]) ∧
    (∀ name : String, createTracker BuildPSRTrackers name = (none, none) →
      name = "psr" ∧ BuildPSRTrackers = (none, none)) := by
  refine ⟨by simp [createTracker], by simp [createTracker], by simp [createTracker],
    by simp [createTracker], by simp [createTracker], by simp [createTracker],
    by simp [createTracker], by simp [createTracker], by simp [createTracker], ?_, ?_⟩
  · intro name hpsr herr
    rcases createTracker_shape BuildPSRTrackers name with ⟨h, _⟩ | ⟨t, ht⟩ | ⟨e, he⟩
    · exact absurd h hpsr
    · exact ⟨t, by rw [ht]⟩
    · rw [he] at herr
      exact absurd herr (by simp)
  · intro name hnil
    rcases createTracker_shape BuildPSRTrackers name with ⟨h, hb⟩ | ⟨t, ht⟩ | ⟨e, he⟩
    · exact ⟨h, by rw [← hb, hnil]⟩
    · rw [ht] at hnil
      exact absurd hnil (by simp)
    · rw [he] at hnil
      exact absurd hnil (by simp)

/-- Witness for C12: "gas" is not "psr", its error is nil and its result is a set
of one tracker. -/
theorem createTracker_fixed_witness :
    "gas" ≠ "psr" ∧
    (createTracker (some [.PSRTracker 1, .PSRTracker 2], none) "gas").2 = none ∧
    (∃ t, (createTracker (some [.PSRTracker 1, .PSRTracker 2], none) "gas").1 = some [t]) :=
  ⟨by decide, by decide,
    (createTracker_fixed (some [.PSRTracker 1, .PSRTracker 2], none)).2.2.2.2.2.2.2.2.2.1
      "gas" (by decide) (by decide)⟩

/-- C13: for an odd-length list of values from a totally ordered domain, `median`
returns an element of the input such that at most (n-1)/2 elements of the input
are strictly smaller and at most (n-1)/2 are strictly greater. -/
theorem median_odd_middle {α : Type} [LinearOrder α] [Zero α] (vals : List α)
    (hodd : vals.length % 2 = 1) :
    median vals ∈ vals ∧
    vals.countP (fun x => decide (x < median vals)) ≤ (vals.length - 1) / 2 ∧
    vals.countP (fun x => decide (median vals < x)) ≤ (vals.length - 1) / 2 := by
  have hne : vals ≠ [] := by
    intro h; rw [h] at hodd; simp at hodd
  obtain ⟨hlt, hm⟩ := median_eq_getElem vals hne
  have hperm := sortSlice_perm (fun a b => decide (a < b)) vals
  have hcount := sorted_countP_getElem _ (sortSlice_sorted vals) (vals.length / 2) hlt
  rw [← hm, hperm.countP_eq, hperm.countP_eq, sortSlice_length] at hcount
  refine ⟨median_mem vals hne, ?_, ?_⟩
  · have := hcount.1; omega
  · have := hcount.2; omega

/-- Witness for C13: the median of [9, 1, 4, 7, 2] is 4, an element of the list with
at most two elements below it and at most two above it. -/
theorem median_odd_middle_witness :
    ([9, 1, 4, 7, 2] : List Int).length % 2 = 1 ∧
    median ([9, 1, 4, 7, 2] : List Int) = 4 ∧
    median ([9, 1, 4, 7, 2] : List Int) ∈ ([9, 1, 4, 7, 2] : List Int) ∧
    ([9, 1, 4, 7, 2] : List Int).countP
      (fun x => decide (x < median ([9, 1, 4, 7, 2] : List Int))) ≤ (5 - 1) / 2 ∧
    ([9, 1, 4, 7, 2] : List Int).countP
      (fun x => decide (median ([9, 1, 4, 7, 2] : List Int) < x)) ≤ (5 - 1) / 2 :=
  ⟨by decide, by decide, (median_odd_middle [9, 1, 4, 7, 2] (by decide)).1,
    (median_odd_middle [9, 1, 4, 7, 2] (by decide)).2.1,
    (median_odd_middle [9, 1, 4, 7, 2] (by decide)).2.2⟩

/-- C14: in real arithmetic, with `math.Exp` the real exponential,
`expTimeWeightedMean` returns 0 for the empty list and otherwise the sum over
the samples of value * exp(-ageSeconds / 28800) divided by the number of
samples; a single sample of value v and age a > 0 yields v * exp(-a/28800),
whereas dividing by the weight would give v, and the two differ whenever v is
non-zero. -/
theorem expTimeWeightedMean_spec (now : Int) :
    expTimeWeightedMean Real.exp now [] = 0 ∧
    (∀ vals : List (TimedFloat ℝ), vals ≠ [] →
      expTimeWeightedMean Real.exp now vals =
        (vals.map fun v =>
          v.Val * Real.exp (-(((Sub now v.Created : Int) : ℝ) / 1000000000) / 28800)).sum /
          (vals.length : ℝ)) ∧
    (∀ (v : ℝ) (created : Int), created < now → v ≠ 0 →
      expTimeWeightedMean Real.exp now [⟨v, created⟩] =
        v * Real.exp (-(((Sub now created : Int) : ℝ) / 1000000000) / 28800) ∧
      v * Real.exp (-(((Sub now created : Int) : ℝ) / 1000000000) / 28800) /
        Real.exp (-(((Sub now created : Int) : ℝ) / 1000000000) / 28800) = v ∧
      expTimeWeightedMean Real.exp now [⟨v, created⟩] ≠ v) := by
  refine ⟨by simp [expTimeWeightedMean], fun vals hne => expTimeWeightedMean_real now vals hne,
    ?_⟩
  intro v created hlt hv
  have hval : expTimeWeightedMean Real.exp now [⟨v, created⟩] =
      v * Real.exp (-(((Sub now created : Int) : ℝ) / 1000000000) / 28800) := by
    rw [expTimeWeightedMean_real now _ (by simp)]
    simp
  have hage : (0 : ℝ) < ((Sub now created : Int) : ℝ) := by
    exact_mod_cast Sub_pos now created hlt
  have hw : Real.exp (-(((Sub now created : Int) : ℝ) / 1000000000) / 28800) < 1 := by
    rw [Real.exp_lt_one_iff]
    have : (0 : ℝ) < ((Sub now created : Int) : ℝ) / 1000000000 := by positivity
    linarith [div_pos this (by norm_num : (0 : ℝ) < 28800), neg_div (28800 : ℝ)
      (((Sub now created : Int) : ℝ) / 1000000000)]
  have hwpos := Real.exp_pos (-(((Sub now created : Int) : ℝ) / 1000000000) / 28800)
  refine ⟨hval, by field_simp, ?_⟩
  rw [hval]
  intro hcontra
  have : v * (Real.exp (-(((Sub now created : Int) : ℝ) / 1000000000) / 28800) - 1) = 0 := by
    linarith
  rcases mul_eq_zero.1 this with h0 | h1
  · exact hv h0
  · linarith

/-- Witness for C14: one sample of value 2 aged 8 hours does not yield 2. -/
theorem expTimeWeightedMean_spec_witness :
    (0 : Int) < 28800000000000 ∧ (2 : ℝ) ≠ 0 ∧
    expTimeWeightedMean Real.exp 28800000000000 [⟨2, 0⟩] ≠ 2 :=
  ⟨by decide, by norm_num,
    ((expTimeWeightedMean_spec 28800000000000).2.2 2 0 (by decide) (by norm_num)).2.2⟩

/-- C15, the code at the ages of the documented table: a sample of value 1 (the
result is then its weight) has weight exactly 1 at age 0, a weight between 0.47
and 0.48 at an age of 6 hours, which is not 0.50 to two decimal places, and a
weight between 0.045 and 0.055 at an age of 24 hours, which is 0.05 to two
decimal places; so the 6-hour weight is outside [0.495, 0.505). -/
theorem weight_table_mismatch :
    expTimeWeightedMean Real.exp 0 [⟨1, 0⟩] = 1 ∧
    ((0.47 : ℝ) < expTimeWeightedMean Real.exp (21600 * 1000000000) [⟨1, 0⟩] ∧
      expTimeWeightedMean Real.exp (21600 * 1000000000) [⟨1, 0⟩] < (0.48 : ℝ)) ∧
    ((0.045 : ℝ) ≤ expTimeWeightedMean Real.exp (86400 * 1000000000) [⟨1, 0⟩] ∧
      expTimeWeightedMean Real.exp (86400 * 1000000000) [⟨1, 0⟩] < (0.055 : ℝ)) ∧
    ¬ ((0.495 : ℝ) ≤ expTimeWeightedMean Real.exp (21600 * 1000000000) [⟨1, 0⟩] ∧
      expTimeWeightedMean Real.exp (21600 * 1000000000) [⟨1, 0⟩] < (0.505 : ℝ)) := by
  have hsix : (0.47 : ℝ) < expTimeWeightedMean Real.exp (21600 * 1000000000) [⟨1, 0⟩] ∧
      expTimeWeightedMean Real.exp (21600 * 1000000000) [⟨1, 0⟩] < (0.48 : ℝ) := by
    rw [unit_sample_weight _ (by decide) (by decide)]
    have he : (-((((21600 * 1000000000 : Int)) : ℝ) / 1000000000) / 28800) = -(3 / 4 : ℝ) := by
      norm_num
    rw [he, Real.exp_neg]
    obtain ⟨hlo, hhi⟩ := exp_three_quarters_bounds
    have hpos := Real.exp_pos (3 / 4)
    constructor
    · rw [lt_inv_comm₀ (by norm_num) hpos]
      norm_num at hhi ⊢
      linarith
    · rw [inv_lt_comm₀ hpos (by norm_num)]
      norm_num at hlo ⊢
      linarith
  have hday : (0.045 : ℝ) ≤ expTimeWeightedMean Real.exp (86400 * 1000000000) [⟨1, 0⟩] ∧
      expTimeWeightedMean Real.exp (86400 * 1000000000) [⟨1, 0⟩] < (0.055 : ℝ) := by
    rw [unit_sample_weight _ (by decide) (by decide)]
    have he : (-((((86400 * 1000000000 : Int)) : ℝ) / 1000000000) / 28800) = -(3 : ℝ) := by
      norm_num
    rw [he, Real.exp_neg]
    obtain ⟨hlo, hhi⟩ := exp_three_bounds
    have hpos := Real.exp_pos 3
    constructor
    · rw [le_inv_comm₀ (by norm_num) hpos]
      norm_num at hhi ⊢
      linarith
    · rw [inv_lt_comm₀ hpos (by norm_num)]
      norm_num at hlo ⊢
      linarith
  have hnew : expTimeWeightedMean Real.exp 0 [⟨1, 0⟩] = 1 := by
    rw [unit_sample_weight 0 (by decide) (by decide)]
    simp
  refine ⟨hnew, hsix, hday, fun h => ?_⟩
  have h1 := hsix.2
  have h2 := h.1
  norm_num at h1 h2
  linarith

/-- C16: called through the interface, the Time-Average strategy's Transform is the
Default strategy's Transform, the mean of the successfully parsed payloads
whenever Transform completes, and the Median strategy's Value is the Default
strategy's Value, the latest stored sample's value with ready = true whenever
the store holds a sample. -/
theorem variants_delegate {α : Type} [Zero α] [Add α] [Div α] [NatCast α] [LT α]
    [DecidableRel (fun a b : α => a < b)] (parse : PayloadParser α)
    (r : PrespecifiedRequest) (payloads : List (Option (List Nat))) (env : Env α) :
    ValueProcessor.Transform .TimeAverage parse r payloads =
      ValueProcessor.Transform .DefaultProcessor parse r payloads ∧
    ((∀ (j : Nat) (b : List Nat), payloads[j]? = some (some b) → j < r.argGroups.length) →
      ValueProcessor.Transform .TimeAverage parse r payloads =
        .ok (mean (parsedSamples parse r payloads), none)) ∧
    ValueProcessor.Value .MedianProc env r = ValueProcessor.Value .DefaultProcessor env r ∧
    (∀ ti : TimedFloat α, env.GetLatestRequestValue r.RequestID = some ti →
      ValueProcessor.Value .MedianProc env r = .ok (ti.Val, true)) := by
  refine ⟨rfl, ?_, rfl, ?_⟩
  · intro h
    have hok := parsePayloads_ok parse r payloads h
    simp [ValueProcessor.Transform, TimeAverage.Transform, DefaultProcessor.Transform, hok]
  · intro ti hti
    simp [ValueProcessor.Value, MedianProc.Value, DefaultProcessor.Value, hti]

/-- Witness for C16: on the payloads ["42", nil, "10"] the Time-Average Transform is
the mean of 42 and 10, and on a store whose latest sample is 5 the Median Value
is (5, true). -/
theorem variants_delegate_witness :
    (∀ (j : Nat) (b : List Nat), [some [52, 50], none, some [49, 48]][j]? = some (some b) →
      j < (PrespecifiedRequest.mk 7 1 [["a"], ["b"], ["c"]]).argGroups.length) ∧
    ValueProcessor.Transform .TimeAverage decimalParser ⟨7, 1, [["a"], ["b"], ["c"]]⟩
      [some [52, 50], none, some [49, 48]] = .ok (mean [42, 10], none) ∧
    (exampleEnv Hour (exampleSamples 3 5)).GetLatestRequestValue 7 = some ⟨5, 0⟩ ∧
    ValueProcessor.Value .MedianProc (exampleEnv Hour (exampleSamples 3 5))
      ⟨7, 1, [["a"], ["b"], ["c"]]⟩ = .ok (5, true) := by
  have hh : ∀ (j : Nat) (b : List Nat),
      [some [52, 50], none, some [49, 48]][j]? = some (some b) →
      j < (PrespecifiedRequest.mk 7 1 [["a"], ["b"], ["c"]]).argGroups.length := by
    intro j b hj
    match j, hj with
    | 0, _ => decide
    | 1, hj => simp at hj
    | 2, _ => decide
    | j + 3, hj => simp at hj
  have hs : parsedSamples decimalParser ⟨7, 1, [["a"], ["b"], ["c"]]⟩
      [some [52, 50], none, some [49, 48]] = [42, 10] := by
    simp [parsedSamples, decimalParser, List.filterMap_cons]
  have hlatest : (exampleEnv Hour (exampleSamples 3 5)).GetLatestRequestValue 7
      = some ⟨5, 0⟩ := by
    simp [exampleEnv, exampleSamples, List.replicate]
  have h := variants_delegate decimalParser ⟨7, 1, [["a"], ["b"], ["c"]]⟩
    [some [52, 50], none, some [49, 48]] (exampleEnv Hour (exampleSamples 3 5))
  have h1 := h.2.1 hh
  rw [hs] at h1
  exact ⟨hh, h1, hlatest, h.2.2.2 ⟨5, 0⟩ hlatest⟩

/-- C17, the code at the failing input: with a sampling cycle of 48 hours and no
sample in the window, the Time-Average Value reports (0, true): the expected
count is 0, the quotient 0/0 is NaN, and NaN is not below 0.6. -/
theorem TimeAverage_ready_without_samples :
    0 < (exampleEnv (48 * Hour) []).TrackerSleepCycle ∧
    (exampleEnv (48 * Hour) []).GetRequestValuesForTime 1
      (exampleEnv (48 * Hour) []).now (24 * Hour) = [] ∧
    TimeAverage.Value (exampleEnv (48 * Hour) []) ⟨1, 1, []⟩ = .ok (0, true) := by
  refine ⟨by decide, rfl, ?_⟩
  rw [TimeAverage_Value_long_cycle _ _ (by decide)]
  simp [exampleEnv, mean]

/-- C18: whenever `ValueP.UnmarshalJSON` returns an error, be it the error of
`json.Unmarshal` on input that is not a string or the error for an unrecognized
tag, the receiver holds the strategy it held before the call. -/
theorem UnmarshalJSON_atomic (f : ValueP) (decoded : Except GoError String)
    (h : (f.UnmarshalJSON decoded).2 ≠ none) :
    (f.UnmarshalJSON decoded).1 = f := by
  unfold ValueP.UnmarshalJSON at h ⊢
  cases decoded with
  | error err => rfl
  | ok str =>
    simp only at h ⊢
    split_ifs at h ⊢ <;> simp_all

/-- Witness for C18: a selector holding the Median strategy keeps it when the
input is not a JSON string and when the tag is "bogus". -/
theorem UnmarshalJSON_atomic_witness :
    (ValueP.UnmarshalJSON ⟨some .MedianProc⟩ (.error "json: cannot unmarshal")).2 ≠ none ∧
    (ValueP.UnmarshalJSON ⟨some .MedianProc⟩ (.error "json: cannot unmarshal")).1 =
      ⟨some .MedianProc⟩ ∧
    (ValueP.UnmarshalJSON ⟨some .MedianProc⟩ (.ok "bogus")).1 = ⟨some .MedianProc⟩ :=
  ⟨by decide,
    UnmarshalJSON_atomic ⟨some .MedianProc⟩ (.error "json: cannot unmarshal") (by decide),
    UnmarshalJSON_atomic ⟨some .MedianProc⟩ (.ok "bogus") (by decide)⟩

/-- C19: in exact arithmetic, for a non-empty list with minimum `lo` and maximum
`hi`, both `mean` and `median` lie between `lo` and `hi`; hence, whenever
Transform completes and at least one sample parsed, the value the Default and
the Median strategy report lies within the range of the parsed samples. -/
theorem aggregates_in_range {α : Type} [LinearOrderedField α] (l : List α) (lo hi : α)
    (hlo : IsLeast {x | x ∈ l} lo) (hhi : IsGreatest {x | x ∈ l} hi) :
    (lo ≤ mean l ∧ mean l ≤ hi) ∧
    (lo ≤ median l ∧ median l ≤ hi) ∧
    (∀ (parse : PayloadParser α) (r : PrespecifiedRequest)
        (payloads : List (Option (List Nat))),
      (∀ (j : Nat) (b : List Nat), payloads[j]? = some (some b) →
        j < r.argGroups.length) →
      parsedSamples parse r payloads = l →
      ∃ v w, DefaultProcessor.Transform parse r payloads = .ok (v, none) ∧
        MedianProc.Transform parse r payloads = .ok (w, none) ∧
        lo ≤ v ∧ v ≤ hi ∧ lo ≤ w ∧ w ≤ hi) := by
  have hne : l ≠ [] := List.ne_nil_of_mem hlo.1
  have hmean := mean_bounds l lo hi hne (fun x hx => hlo.2 hx) (fun x hx => hhi.2 hx)
  have hmed : lo ≤ median l ∧ median l ≤ hi :=
    ⟨hlo.2 (median_mem l hne), hhi.2 (median_mem l hne)⟩
  refine ⟨hmean, hmed, ?_⟩
  intro parse r payloads hidx hsamples
  have hok := parsePayloads_ok parse r payloads hidx
  rw [hsamples] at hok
  exact ⟨mean l, median l, by simp [DefaultProcessor.Transform, hok],
    by simp [MedianProc.Transform, hok], hmean.1, hmean.2, hmed.1, hmed.2⟩

/-- Witness for C19: the list [6, 1, 2] has minimum 1 and maximum 6, and its mean
and median lie between them. -/
theorem aggregates_in_range_witness :
    IsLeast {x | x ∈ ([6, 1, 2] : List ℚ)} 1 ∧
    IsGreatest {x | x ∈ ([6, 1, 2] : List ℚ)} 6 ∧
    (1 ≤ mean ([6, 1, 2] : List ℚ) ∧ mean ([6, 1, 2] : List ℚ) ≤ 6) ∧
    (1 ≤ median ([6, 1, 2] : List ℚ) ∧ median ([6, 1, 2] : List ℚ) ≤ 6) := by
  have h1 : IsLeast {x | x ∈ ([6, 1, 2] : List ℚ)} 1 := by
    refine ⟨by simp, ?_⟩
    intro x hx
    simp only [Set.mem_setOf_eq, List.mem_cons, List.mem_singleton, List.mem_nil_iff,
      or_false] at hx
    rcases hx with rfl | rfl | rfl <;> norm_num
  have h6 : IsGreatest {x | x ∈ ([6, 1, 2] : List ℚ)} 6 := by
    refine ⟨by simp, ?_⟩
    intro x hx
    simp only [Set.mem_setOf_eq, List.mem_cons, List.mem_singleton, List.mem_nil_iff,
      or_false] at hx
    rcases hx with rfl | rfl | rfl <;> norm_num
  have h := aggregates_in_range [6, 1, 2] 1 6 h1 h6
  exact ⟨h1, h6, h.1, h.2.1⟩

end Tracker
